import Mathlib

/-!
Verification of the version-checkr webhook handler.

This file shallowly embeds the decision core of the repository:

* `validateSignature` — the X-Hub-Signature check (`src/versioncheckr.js`,
  identical in every revision of the handler), together with a byte-level
  model of `crypto.createHmac('sha1', …)` (HMAC-SHA1) and of
  `crypto.timingSafeEqual` (which throws a `RangeError` when the two buffers
  have different lengths, modelled as `Except.error`).
* the JSON `version`-field reader used by `compareVersionsFromGitHub`,
* the node-semver fragment the code calls (`semver.inc`, `semver.gte`),
* the `#version-checkr:` directive matcher (the policy extractor),
* the event classification and the post-classification pipelines of the
  callback revision (`src/versioncheckr.js`) and of the checks-API revision
  (the last file of `src/unnamed/part_006`), with an explicit log of the
  `repos.getContent` calls they issue.

Bytes are `Nat`s (`% 256` values produced by the definitions), 32-bit words
are `Nat`s reduced `% 2^32` where overflow matters.
-/

namespace VC

/-! ### Bytes, 32-bit words, SHA-1 and HMAC-SHA1

`crypto.createHmac('sha1', secret).update(body).digest('hex')` is modelled by
`hexEncode (hmacSha1 secret body)`.  Buffers are lists of byte values.
-/

/-- Reduce to a 32-bit word. -/
def w32 (n : Nat) : Nat := n % 4294967296

/-- Rotate a 32-bit word left by `k` bits (input assumed `< 2^32`). -/
def rotl (k n : Nat) : Nat := w32 (n * 2 ^ k + n / 2 ^ (32 - k))

/-- Bitwise complement of a 32-bit word. -/
def wnot (n : Nat) : Nat := Nat.xor n 4294967295

/-- Big-endian 4-byte encoding of a 32-bit word. -/
def wordBytes (n : Nat) : List Nat :=
  [n / 16777216 % 256, n / 65536 % 256, n / 256 % 256, n % 256]

/-- Big-endian 8-byte encoding (used for the SHA-1 length trailer). -/
def be64 (n : Nat) : List Nat :=
  [n / 72057594037927936 % 256, n / 281474976710656 % 256,
   n / 1099511627776 % 256, n / 4294967296 % 256,
   n / 16777216 % 256, n / 65536 % 256, n / 256 % 256, n % 256]

/-- Pack big-endian groups of four bytes into 32-bit words. -/
def bytesToWords : List Nat → List Nat
  | b0 :: b1 :: b2 :: b3 :: rest =>
      (b0 * 16777216 + b1 * 65536 + b2 * 256 + b3) :: bytesToWords rest
  | _ => []

/-- SHA-1 padding: `0x80`, zeros to 56 mod 64, then the bit length. -/
def sha1Pad (msg : List Nat) : List Nat :=
  let z := (119 - msg.length % 64) % 64
  msg ++ [128] ++ List.replicate z 0 ++ be64 (8 * msg.length)

/-- Split a padded message into 64-byte chunks (fuel = list length). -/
def chunks64Aux : Nat → List Nat → List (List Nat)
  | 0, _ => []
  | _, [] => []
  | fuel + 1, bs => bs.take 64 :: chunks64Aux fuel (bs.drop 64)

def chunks64 (bs : List Nat) : List (List Nat) := chunks64Aux bs.length bs

/-- Message-schedule extension: grow the 16 chunk words to 80. -/
def sha1Extend (ws : List Nat) : Nat → List Nat
  | 0 => ws
  | n + 1 =>
      let L := ws.length
      let x := Nat.xor (Nat.xor (ws.getD (L - 3) 0) (ws.getD (L - 8) 0))
        (Nat.xor (ws.getD (L - 14) 0) (ws.getD (L - 16) 0))
      sha1Extend (ws ++ [rotl 1 x]) n

/-- The SHA-1 round function for round `t`. -/
def sha1F (t b c d : Nat) : Nat :=
  if t < 20 then Nat.lor (Nat.land b c) (Nat.land (wnot b) d)
  else if t < 40 then Nat.xor (Nat.xor b c) d
  else if t < 60 then Nat.lor (Nat.lor (Nat.land b c) (Nat.land b d)) (Nat.land c d)
  else Nat.xor (Nat.xor b c) d

/-- The SHA-1 round constant for round `t`. -/
def sha1K (t : Nat) : Nat :=
  if t < 20 then 1518500249
  else if t < 40 then 1859775393
  else if t < 60 then 2400959708
  else 3395469782

/-- Compression rounds over one chunk's extended schedule (first argument:
rounds remaining, second: the round index `t`). -/
def sha1Rounds (w : List Nat) : Nat → Nat → Nat × Nat × Nat × Nat × Nat →
    Nat × Nat × Nat × Nat × Nat
  | 0, _, st => st
  | rem + 1, t, (a, b, c, d, e) =>
      let tmp := w32 (rotl 5 a + sha1F t b c d + e + sha1K t + w.getD t 0)
      sha1Rounds w rem (t + 1) (tmp, a, rotl 30 b, c, d)

/-- Fold one 64-byte chunk into the running hash state. -/
def sha1Chunk (st : Nat × Nat × Nat × Nat × Nat) (chunk : List Nat) :
    Nat × Nat × Nat × Nat × Nat :=
  let (h0, h1, h2, h3, h4) := st
  let w := sha1Extend (bytesToWords chunk) 64
  let (a, b, c, d, e) := sha1Rounds w 80 0 (h0, h1, h2, h3, h4)
  (w32 (h0 + a), w32 (h1 + b), w32 (h2 + c), w32 (h3 + d), w32 (h4 + e))

/-- The SHA-1 digest (20 bytes) of a byte string. -/
def sha1 (msg : List Nat) : List Nat :=
  let st := (chunks64 (sha1Pad msg)).foldl sha1Chunk
    (1732584193, 4023233417, 2562383102, 271733878, 3285377520)
  wordBytes st.1 ++ wordBytes st.2.1 ++ wordBytes st.2.2.1 ++
    wordBytes st.2.2.2.1 ++ wordBytes st.2.2.2.2

/-- HMAC-SHA1 with byte-string key and message (block size 64). -/
def hmacSha1 (key msg : List Nat) : List Nat :=
  let k0 := if 64 < key.length then sha1 key else key
  let kp := k0 ++ List.replicate (64 - k0.length) 0
  let ip := kp.map fun b => Nat.xor b 54
  let op := kp.map fun b => Nat.xor b 92
  sha1 (op ++ sha1 (ip ++ msg))

/-- Lowercase hex digit characters. -/
def hexDigit (n : Nat) : Char :=
  if n < 10 then Char.ofNat (48 + n) else Char.ofNat (87 + n)

/-- Lowercase hex encoding of a byte string (Node's `digest('hex')`). -/
def hexEncode (bs : List Nat) : List Char :=
  bs.flatMap fun b => [hexDigit (b / 16), hexDigit (b % 16)]

/-- UTF-8 bytes of an ASCII character list (all inputs used are ASCII). -/
def asciiBytes (cs : List Char) : List Nat := cs.map Char.toNat

/-! ### Signature verification (`validateSignature`, src/versioncheckr.js:9-16)

`crypto.timingSafeEqual(a, b)` compares two buffers in constant time but
**throws** `RangeError: Input buffers must have the same byte length` when
`a.length !== b.length`; the throw is modelled as `Except.error`. -/

/-- Node's `crypto.timingSafeEqual` on byte buffers. -/
def timingSafeEqual (a b : List Nat) : Except Unit Bool :=
  if a.length = b.length then Except.ok (decide (a = b)) else Except.error ()

/-- The expected signature header: `'sha1=' + hex(hmacSha1(secret, body))`,
as a byte string (`Buffer.from(bodySig, 'utf8')`). -/
def expectedSig (secret body : List Nat) : List Nat :=
  asciiBytes ("sha1=".toList) ++ asciiBytes (hexEncode (hmacSha1 secret body))

/-- `validateSignature(body, xHubSignature)` from src/versioncheckr.js:9-16,
with the webhook secret and both strings taken as their UTF-8 bytes. -/
def validateSignature (secret body xHubSignature : List Nat) : Except Unit Bool :=
  timingSafeEqual (expectedSig secret body) xHubSignature

theorem sha1_length (msg : List Nat) : (sha1 msg).length = 20 := by
  simp [sha1, wordBytes]

theorem hexEncode_length (bs : List Nat) : (hexEncode bs).length = 2 * bs.length := by
  induction bs with
  | nil => simp [hexEncode]
  | cons b bs ih => simp [hexEncode] at ih ⊢; omega

theorem expectedSig_length (secret body : List Nat) :
    (expectedSig secret body).length = 45 := by
  simp [expectedSig, asciiBytes, hexEncode_length, sha1_length, hmacSha1]

theorem expectedSig_head (secret body : List Nat) :
    (expectedSig secret body).head? = some 115 := by
  simp [expectedSig, asciiBytes]

/-- C3 counterexample: at the concrete input `secret = [] , body = [] ,
signature header = []` (a header whose length differs from the expected
45-byte digest string), `validateSignature` throws (Node's
`crypto.timingSafeEqual` raises a `RangeError` on buffers of different
lengths) instead of returning false. -/
theorem validateSignature_throws_on_short_header :
    validateSignature [] [] [] = Except.error () := by
  simp [validateSignature, timingSafeEqual, expectedSig_length]

/-- C3 (amended): `validateSignature` fails closed — returns false without
throwing — for every signature header of the same byte length as the
expected digest string (45 bytes), including headers with no recognized
algorithm prefix; a header of any other length makes
`crypto.timingSafeEqual` throw instead (see the counterexample). -/
theorem validateSignature_fails_closed_same_length
    (secret body sig : List Nat) (hlen : sig.length = 45)
    (hne : sig ≠ expectedSig secret body) :
    validateSignature secret body sig = Except.ok false := by
  unfold validateSignature timingSafeEqual
  rw [expectedSig_length, hlen]
  have h' : expectedSig secret body ≠ sig := fun h => hne h.symm
  simp [h']

/-- Witness for the amended C3 theorem: a 45-byte header of `'0'` bytes
(no recognized algorithm prefix) is rejected with `false`, not a throw. -/
theorem validateSignature_fails_closed_same_length_witness :
    (48 :: List.replicate 44 48).length = 45 ∧
      validateSignature [] [] (48 :: List.replicate 44 48) = Except.ok false := by
  refine ⟨by simp, validateSignature_fails_closed_same_length [] [] _ (by simp) ?_⟩
  intro h
  have hh := expectedSig_head [] []
  rw [← h] at hh
  simp at hh

/-- C4: `validateSignature` returns true exactly when the signature header
equals the string `'sha1='` followed by the lowercase hex HMAC-SHA1 digest
of the exact body bytes under the configured secret (`expectedSig`). -/
theorem validateSignature_ok_true_iff (secret body sig : List Nat) :
    validateSignature secret body sig = Except.ok true ↔
      sig = expectedSig secret body := by
  unfold validateSignature timingSafeEqual
  constructor
  · intro h
    split at h
    · simp only [Except.ok.injEq, decide_eq_true_eq] at h
      exact h.symm
    · exact absurd h (by simp)
  · intro h
    subst h
    simp

/-! ### JSON values and `JSON.parse`

`compareVersionsFromGitHub` reads the manifest's version with
`JSON.parse(text).version`.  The parser below follows the JSON grammar
accepted by `JSON.parse` (strict: double-quoted strings with escape
sequences including `\uXXXX`, no trailing garbage, objects keeping the
last of duplicate keys).  A failed parse models the `SyntaxError` throw.
`\uXXXX` escapes are decoded with `Char.ofNat` (surrogate halves, which
Lean characters cannot hold, decode to the null character; no claim
exercises them). -/

inductive JValue where
  | jnull
  | jbool (b : Bool)
  | jnum (raw : String)
  | jstr (s : String)
  | jarr (xs : List JValue)
  | jobj (fields : List (String × JValue))

/-- JSON whitespace (the only four characters `JSON.parse` skips). -/
def jsonWs (c : Char) : Bool :=
  c.toNat = 32 ∨ c.toNat = 9 ∨ c.toNat = 10 ∨ c.toNat = 13

def skipWs (cs : List Char) : List Char := cs.dropWhile jsonWs

def isDigitChar (c : Char) : Bool := 48 ≤ c.toNat ∧ c.toNat ≤ 57

def hexNibble (c : Char) : Option Nat :=
  if 48 ≤ c.toNat ∧ c.toNat ≤ 57 then some (c.toNat - 48)
  else if 97 ≤ c.toNat ∧ c.toNat ≤ 102 then some (c.toNat - 87)
  else if 65 ≤ c.toNat ∧ c.toNat ≤ 70 then some (c.toNat - 55)
  else none

/-- JSON string body (after the opening quote): content and remainder. -/
def jstrAux : Nat → List Char → Option (List Char × List Char)
  | 0, _ => none
  | _, [] => none
  | fuel + 1, c :: cs =>
    if c = '"' then some ([], cs)
    else if c = '\\' then
      match cs with
      | [] => none
      | e :: cs2 =>
        if e = '"' ∨ e = '\\' ∨ e = '/' then
          (jstrAux fuel cs2).map fun p => (e :: p.1, p.2)
        else if e = 'b' then (jstrAux fuel cs2).map fun p => (Char.ofNat 8 :: p.1, p.2)
        else if e = 'f' then (jstrAux fuel cs2).map fun p => (Char.ofNat 12 :: p.1, p.2)
        else if e = 'n' then (jstrAux fuel cs2).map fun p => ('\n' :: p.1, p.2)
        else if e = 'r' then (jstrAux fuel cs2).map fun p => ('\r' :: p.1, p.2)
        else if e = 't' then (jstrAux fuel cs2).map fun p => ('\t' :: p.1, p.2)
        else if e = 'u' then
          match cs2 with
          | h1 :: h2 :: h3 :: h4 :: cs3 =>
            match hexNibble h1, hexNibble h2, hexNibble h3, hexNibble h4 with
            | some a, some b, some c', some d =>
              (jstrAux fuel cs3).map fun p =>
                (Char.ofNat (a * 4096 + b * 256 + c' * 16 + d) :: p.1, p.2)
            | _, _, _, _ => none
          | _ => none
        else none
    else if c.toNat < 32 then none
    else (jstrAux fuel cs).map fun p => (c :: p.1, p.2)

/-- JSON number token (raw characters), per the JSON grammar. -/
def jnumToken (cs : List Char) : Option (List Char × List Char) :=
  let (neg, cs1) := match cs with
    | '-' :: r => (['-'], r)
    | _ => (([] : List Char), cs)
  let intPart : Option (List Char × List Char) := match cs1 with
    | '0' :: r => some (['0'], r)
    | c :: _ =>
      if isDigitChar c ∧ c ≠ '0' then
        some (cs1.takeWhile isDigitChar, cs1.dropWhile isDigitChar)
      else none
    | [] => none
  intPart.bind fun (ip, cs2) =>
  let fracPart : Option (List Char × List Char) := match cs2 with
    | '.' :: r =>
      if (r.takeWhile isDigitChar) = [] then none
      else some ('.' :: r.takeWhile isDigitChar, r.dropWhile isDigitChar)
    | _ => some ([], cs2)
  fracPart.bind fun (fp, cs3) =>
  let expPart : Option (List Char × List Char) := match cs3 with
    | e :: r =>
      if e = 'e' ∨ e = 'E' then
        let (sgn, r2) := match r with
          | s :: r' => if s = '+' ∨ s = '-' then ([s], r') else (([] : List Char), r)
          | [] => (([] : List Char), r)
        if (r2.takeWhile isDigitChar) = [] then none
        else some (e :: sgn ++ r2.takeWhile isDigitChar, r2.dropWhile isDigitChar)
      else some ([], cs3)
    | [] => some ([], cs3)
  expPart.map fun (ep, cs4) => (neg ++ ip ++ fp ++ ep, cs4)

mutual

/-- JSON value (fuel-indexed recursive descent). -/
def jvalueAux : Nat → List Char → Option (JValue × List Char)
  | 0, _ => none
  | fuel + 1, cs =>
    match cs with
    | [] => none
    | c :: rest =>
      if c = '"' then (jstrAux (fuel + 1) rest).map fun p => (.jstr p.1.asString, p.2)
      else if c = '{' then
        match skipWs rest with
        | '}' :: r => some (.jobj [], r)
        | cs2 => (jmembersAux fuel cs2).map fun p => (.jobj p.1, p.2)
      else if c = '[' then
        match skipWs rest with
        | ']' :: r => some (.jarr [], r)
        | cs2 => (jelemsAux fuel cs2).map fun p => (.jarr p.1, p.2)
      else if c = 't' then
        match rest with
        | 'r' :: 'u' :: 'e' :: r => some (.jbool true, r)
        | _ => none
      else if c = 'f' then
        match rest with
        | 'a' :: 'l' :: 's' :: 'e' :: r => some (.jbool false, r)
        | _ => none
      else if c = 'n' then
        match rest with
        | 'u' :: 'l' :: 'l' :: r => some (.jnull, r)
        | _ => none
      else (jnumToken cs).map fun p => (.jnum p.1.asString, p.2)

/-- Object members: `"key" : value ( , members | } )`. -/
def jmembersAux : Nat → List Char → Option (List (String × JValue) × List Char)
  | 0, _ => none
  | fuel + 1, cs =>
    match cs with
    | '"' :: r =>
      (jstrAux fuel r).bind fun (k, r2) =>
      match skipWs r2 with
      | ':' :: r3 =>
        (jvalueAux fuel (skipWs r3)).bind fun (v, r4) =>
        match skipWs r4 with
        | ',' :: r5 => (jmembersAux fuel (skipWs r5)).map fun p =>
            ((k.asString, v) :: p.1, p.2)
        | '}' :: r5 => some ([(k.asString, v)], r5)
        | _ => none
      | _ => none
    | _ => none

/-- Array elements: `value ( , elements | ] )`. -/
def jelemsAux : Nat → List Char → Option (List JValue × List Char)
  | 0, _ => none
  | fuel + 1, cs =>
    (jvalueAux fuel cs).bind fun (v, r) =>
    match skipWs r with
    | ',' :: r2 => (jelemsAux fuel (skipWs r2)).map fun p => (v :: p.1, p.2)
    | ']' :: r2 => some ([v], r2)
    | _ => none

end

/-- `JSON.parse`: `none` models a thrown `SyntaxError`. -/
def jsonParse (s : String) : Option JValue :=
  match jvalueAux (3 * s.length + 3) (skipWs s.toList) with
  | some (v, rest) => if skipWs rest = [] then some v else none
  | none => none

/-- `obj.version` as a string: JavaScript property access keeps the last of
duplicate keys; a missing field or a non-string value is `none` (and makes
the semver calls downstream throw). -/
def versionField (v : JValue) : Option String :=
  match v with
  | .jobj fields =>
    match fields.reverse.find? fun f => f.1 == "version" with
    | some (_, .jstr s) => some s
    | _ => none
  | _ => none

/-! ### The node-semver fragment used by the code

The handler calls `semver.inc(oldVersion, releaseType)` and
`semver.gte(newVersion, oldVersionIncremented)` (node-semver 5.x, strict
mode).  `SemVer` keeps the numeric triple and the prerelease identifiers
(build metadata is parsed and discarded, as the library ignores it for
precedence).  `semver.inc` returns `null` (here `none`) on an invalid
version or release type; `semver.gte` throws (here `Except.error`) when
either argument fails to parse. -/

/-- JavaScript `\s` / `String.prototype.trim` whitespace. -/
def jsSpace (c : Char) : Bool :=
  c.toNat = 32 ∨ c.toNat = 9 ∨ c.toNat = 10 ∨ c.toNat = 13 ∨ c.toNat = 11 ∨
  c.toNat = 12 ∨ c.toNat = 160 ∨ c.toNat = 5760 ∨
  (8192 ≤ c.toNat ∧ c.toNat ≤ 8202) ∨
  c.toNat = 8232 ∨ c.toNat = 8233 ∨ c.toNat = 8239 ∨ c.toNat = 8287 ∨
  c.toNat = 12288 ∨ c.toNat = 65279

def jsTrim (cs : List Char) : List Char :=
  ((cs.dropWhile jsSpace).reverse.dropWhile jsSpace).reverse

/-- A prerelease identifier: numeric, or a string identifier. -/
inductive PreId where
  | num (n : Nat)
  | str (s : String)
deriving DecidableEq

structure SemVer where
  major : Nat
  minor : Nat
  patch : Nat
  prerelease : List PreId
deriving DecidableEq

/-- `Number.MAX_SAFE_INTEGER`, node-semver's bound on numeric components. -/
def maxSafeInteger : Nat := 9007199254740991

def charsToNatVal (cs : List Char) : Nat :=
  cs.foldl (fun acc c => 10 * acc + (c.toNat - 48)) 0

/-- Numeric identifier `(0|[1-9]\d*)` with the `MAX_SAFE_INTEGER` bound. -/
def parseNumId (cs : List Char) : Option (Nat × List Char) :=
  let run := cs.takeWhile isDigitChar
  if run = [] then none
  else if run.head? = some '0' ∧ run.length ≠ 1 then none
  else if maxSafeInteger < charsToNatVal run then none
  else some (charsToNatVal run, cs.dropWhile isDigitChar)

def isIdChar (c : Char) : Bool :=
  isDigitChar c ∨ (97 ≤ c.toNat ∧ c.toNat ≤ 122) ∨
    (65 ≤ c.toNat ∧ c.toNat ≤ 90) ∨ c.toNat = 45

/-- One prerelease identifier: `0|[1-9]\d*|\d*[a-zA-Z-][a-zA-Z0-9-]*`;
digit-only identifiers below `MAX_SAFE_INTEGER` become numeric. -/
def parsePreId (cs : List Char) : Option (PreId × List Char) :=
  let run := cs.takeWhile isIdChar
  if run = [] then none
  else
    let rest := cs.dropWhile isIdChar
    if run.all isDigitChar then
      if run.head? = some '0' ∧ run.length ≠ 1 then none
      else if charsToNatVal run < maxSafeInteger then
        some (.num (charsToNatVal run), rest)
      else some (.str run.asString, rest)
    else some (.str run.asString, rest)

/-- Dot-separated prerelease identifiers. -/
def parsePreIds : Nat → List Char → Option (List PreId × List Char)
  | 0, _ => none
  | fuel + 1, cs =>
    (parsePreId cs).bind fun (i, rest) =>
    match rest with
    | '.' :: r2 => (parsePreIds fuel r2).map fun p => (i :: p.1, p.2)
    | _ => some ([i], rest)

/-- Dot-separated build identifiers (`[0-9A-Za-z-]+`), value discarded. -/
def parseBuildIds : Nat → List Char → Option (List Char)
  | 0, _ => none
  | fuel + 1, cs =>
    let run := cs.takeWhile isIdChar
    if run = [] then none
    else
      match cs.dropWhile isIdChar with
      | '.' :: r2 => parseBuildIds fuel r2
      | rest => some rest

/-- The strict `FULL` semver pattern: optional `v`, `M.m.p`, optional
`-prerelease`, optional `+build`, end of string. -/
def parseSemverChars (cs0 : List Char) : Option SemVer :=
  let cs := match cs0 with
    | c :: r => if c = 'v' then r else cs0
    | [] => cs0
  (parseNumId cs).bind fun (ma, r1) =>
  match r1 with
  | c1 :: r2 =>
    if c1 = '.' then
      (parseNumId r2).bind fun (mi, r3) =>
      match r3 with
      | c2 :: r4 =>
        if c2 = '.' then
          (parseNumId r4).bind fun (pa, r5) =>
          let pre? : Option (List PreId × List Char) := match r5 with
            | c3 :: r6 => if c3 = '-' then parsePreIds (r6.length + 1) r6
                else some ([], r5)
            | [] => some ([], r5)
          pre?.bind fun (pre, r7) =>
          let rest? : Option (List Char) := match r7 with
            | c4 :: r8 => if c4 = '+' then parseBuildIds (r8.length + 1) r8
                else some r7
            | [] => some r7
          rest?.bind fun r9 => if r9 = [] then some ⟨ma, mi, pa, pre⟩ else none
        else none
      | [] => none
    else none
  | [] => none

/-- `new SemVer(version)`: trim, `MAX_LENGTH` (256) check, strict pattern.
`none` models the constructor throwing. -/
def parseSemver (s : String) : Option SemVer :=
  let t := jsTrim s.toList
  if 256 < t.length then none else parseSemverChars t

def natCompare (x y : Nat) : Ordering :=
  if x < y then .lt else if y < x then .gt else .eq

/-- JavaScript string relational comparison (code-unit lexicographic). -/
def charListCompare : List Char → List Char → Ordering
  | [], [] => .eq
  | [], _ :: _ => .lt
  | _ :: _, [] => .gt
  | a :: as, b :: bs => (natCompare a.toNat b.toNat).then (charListCompare as bs)

/-- `compareIdentifiers`: numbers before strings, numbers numerically,
strings with JavaScript `<`. -/
def preIdCompare : PreId → PreId → Ordering
  | .num a, .num b => natCompare a b
  | .num _, .str _ => .lt
  | .str _, .num _ => .gt
  | .str a, .str b => charListCompare a.toList b.toList

/-- The element-wise prerelease loop: exhausting first means smaller. -/
def preLoop : List PreId → List PreId → Ordering
  | [], [] => .eq
  | [], _ :: _ => .lt
  | _ :: _, [] => .gt
  | a :: as, b :: bs => (preIdCompare a b).then (preLoop as bs)

/-- `comparePre`: a version with prerelease sorts below one without. -/
def preCompare (a b : List PreId) : Ordering :=
  match a, b with
  | [], [] => .eq
  | [], _ :: _ => .gt
  | _ :: _, [] => .lt
  | _, _ => preLoop a b

def mainCompare (a b : SemVer) : Ordering :=
  (natCompare a.major b.major).then
    ((natCompare a.minor b.minor).then (natCompare a.patch b.patch))

def semverCompareV (a b : SemVer) : Ordering :=
  (mainCompare a b).then (preCompare a.prerelease b.prerelease)

/-- `SemVer.prototype.inc` for the release types the handler can pass
(`major`/`minor`/`patch`); any other type throws, which `semver.inc`
catches and turns into `null`. -/
def semverIncVer (v : SemVer) (rt : String) : Option SemVer :=
  if rt = "major" then
    some ⟨if v.minor ≠ 0 ∨ v.patch ≠ 0 ∨ v.prerelease = [] then v.major + 1
          else v.major, 0, 0, []⟩
  else if rt = "minor" then
    some ⟨v.major, if v.patch ≠ 0 ∨ v.prerelease = [] then v.minor + 1
          else v.minor, 0, []⟩
  else if rt = "patch" then
    some ⟨v.major, v.minor, if v.prerelease = [] then v.patch + 1
          else v.patch, []⟩
  else none

/-- JavaScript decimal rendering of a non-negative integer (fuel-indexed so
that it reduces structurally; `n < fuel` always holds at the call site). -/
def natToCharsAux : Nat → Nat → List Char
  | 0, _ => []
  | fuel + 1, n =>
    if n < 10 then [Char.ofNat (48 + n)]
    else natToCharsAux fuel (n / 10) ++ [Char.ofNat (48 + n % 10)]

def natToChars (n : Nat) : List Char := natToCharsAux (n + 1) n

def preIdChars : PreId → List Char
  | .num n => natToChars n
  | .str s => s.toList

def dotJoin : List (List Char) → List Char
  | [] => []
  | [x] => x
  | x :: xs => x ++ '.' :: dotJoin xs

/-- `SemVer.prototype.format`: `M.m.p` with an optional `-prerelease`. -/
def formatSemVer (v : SemVer) : String :=
  (natToChars v.major ++ '.' :: natToChars v.minor ++ '.' :: natToChars v.patch ++
    (if v.prerelease = [] then [] else
      '-' :: dotJoin (v.prerelease.map preIdChars))).asString

/-- `semver.inc(version, release)`: `null` (`none`) on any failure. -/
def semverInc (s rt : String) : Option String :=
  (parseSemver s).bind fun v => (semverIncVer v rt).map formatSemVer

/-- `semver.gte(a, b)`: throws when either side is not a valid version. -/
def semverGte (a b : String) : Except Unit Bool :=
  match parseSemver a, parseSemver b with
  | some va, some vb => .ok (decide (semverCompareV va vb ≠ .lt))
  | _, _ => .error ()

/-- `semver.gte(newVersion, semver.inc(oldVersion, releaseType))` exactly as
`compareVersionsFromGitHub` computes `isNewer`; an absent (`undefined`)
version field or a `null` increment makes `semver.gte` throw. -/
def versionSatisfied (oldV newV : Option String) (releaseType : String) :
    Except Unit Bool :=
  match newV, oldV.bind fun s => semverInc s releaseType with
  | some n, some i => semverGte n i
  | _, _ => .error ()

/-! ### The `#version-checkr` directive (policy extraction)

`src/versioncheckr.js:139-148` runs `/^#version[- ]?checke?r:\s?([a-z]+)/im`
over the pull-request body and keeps the keyword only if it is one of
`skip|major|minor|patch`; the checks-API revision instead puts the
alternation `(major|minor|patch)` in the pattern itself.  The matchers
below implement exactly those patterns: `^…/m` anchors at position 0 or
right after a line terminator, `exec` returns the leftmost match, `/i`
compares ASCII letters case-insensitively. -/

def asciiLower (c : Char) : Char :=
  if 65 ≤ c.toNat ∧ c.toNat ≤ 90 then Char.ofNat (c.toNat + 32) else c

def eqCI (a b : Char) : Bool := asciiLower a = asciiLower b

def isAsciiLetter (c : Char) : Bool :=
  (97 ≤ c.toNat ∧ c.toNat ≤ 122) ∨ (65 ≤ c.toNat ∧ c.toNat ≤ 90)

/-- Case-insensitively strip a literal pattern from the front. -/
def stripCI : List Char → List Char → Option (List Char)
  | [], cs => some cs
  | _ :: _, [] => none
  | p :: ps, c :: cs => if eqCI p c then stripCI ps cs else none

/-- The pattern's `[- ]?`: greedily consume one hyphen or space (no
backtracking needed: `check` never starts with either). -/
def dashStep (s1 : List Char) : List Char :=
  match s1 with
  | c :: rest => if c = '-' ∨ c = ' ' then rest else s1
  | [] => s1

/-- The pattern's `e?r` with backtracking made explicit. -/
def erStep (s3 : List Char) : Option (List Char) :=
  match s3 with
  | c1 :: c2 :: rest =>
    if eqCI 'e' c1 then (if eqCI 'r' c2 then some rest else none)
    else if eqCI 'r' c1 then some (c2 :: rest) else none
  | [c1] => if eqCI 'r' c1 then some [] else none
  | [] => none

/-- The pattern's `\s?`: greedily consume one whitespace character (the
only backtracking the pattern needs collapses, since the keyword
alternatives never start with whitespace). -/
def spaceStep (s5 : List Char) : List Char :=
  match s5 with
  | c :: rest => if jsSpace c then rest else s5
  | [] => s5

/-- `#version[- ]?checke?r:\s?` at this position; returns the remainder
after the optional whitespace. -/
def matchDirectiveHead (cs : List Char) : Option (List Char) :=
  (stripCI "#version".toList cs).bind fun s1 =>
  (stripCI "check".toList (dashStep s1)).bind fun s3 =>
  (erStep s3).bind fun s4 =>
  match s4 with
  | c0 :: s5 => if c0 = ':' then some (spaceStep s5) else none
  | [] => none

/-- The callback revision's capture `([a-z]+)` (with `/i`): the keyword
run of ASCII letters, which must be non-empty. -/
def matchDirectiveTail (cs : List Char) : Option (List Char) :=
  (matchDirectiveHead cs).bind fun s6 =>
  let grp := s6.takeWhile isAsciiLetter
  if grp = [] then none else some grp

/-- Line terminators after which multiline `^` matches. -/
def isLineTerm (c : Char) : Bool :=
  c.toNat = 10 ∨ c.toNat = 13 ∨ c.toNat = 8232 ∨ c.toNat = 8233

/-- `exec`: scan line-start positions left to right, first match wins. -/
def execDirectiveFrom : Bool → List Char → Option (List Char)
  | _, [] => none
  | atStart, c :: rest =>
    if atStart then
      match matchDirectiveTail (c :: rest) with
      | some g => some g
      | none => execDirectiveFrom (isLineTerm c) rest
    else execDirectiveFrom (isLineTerm c) rest

def execDirective (cs : List Char) : Option (List Char) :=
  execDirectiveFrom true cs

/-- `src/versioncheckr.js:139-148`: default `patch`; a match whose
lowercased keyword is not in `skip|major|minor|patch` is discarded. -/
def extractPolicy (body : Option String) : String :=
  match body with
  | none => "patch"
  | some s =>
    if s.isEmpty then "patch"
    else
      match execDirective s.toList with
      | none => "patch"
      | some g =>
        let a := (g.map asciiLower).asString
        if a = "skip" ∨ a = "major" ∨ a = "minor" ∨ a = "patch" then a
        else "patch"

/-- The checks-API revision's alternation `(major|minor|patch)` (ordered,
case-insensitive), already lowercased as by `match[1].toLowerCase()`. -/
def matchDirectiveTailV3 (cs : List Char) : Option String :=
  (matchDirectiveHead cs).bind fun s6 =>
  if (stripCI "major".toList s6).isSome then some "major"
  else if (stripCI "minor".toList s6).isSome then some "minor"
  else if (stripCI "patch".toList s6).isSome then some "patch"
  else none

def execDirectiveV3From : Bool → List Char → Option String
  | _, [] => none
  | atStart, c :: rest =>
    if atStart then
      match matchDirectiveTailV3 (c :: rest) with
      | some g => some g
      | none => execDirectiveV3From (isLineTerm c) rest
    else execDirectiveV3From (isLineTerm c) rest

/-- The checks-API revision's release-type extraction (part_006:202-208). -/
def extractReleaseTypeV3 (body : Option String) : String :=
  match body with
  | none => "patch"
  | some s =>
    if s.isEmpty then "patch"
    else (execDirectiveV3From true s.toList).getD "patch"

/-! ### Line number of the `"version"` key (part_006:210-212)

`newVersionText.substring(0, newVersionText.indexOf('"version"'))` followed
by `.split('\n').length`; `indexOf` yields `-1` when absent and
`substring(0, -1)` is the empty string. -/

def strIndexOf : List Char → List Char → Option Nat
  | [], pat => if pat = [] then some 0 else none
  | c :: t, pat =>
    if pat.isPrefixOf (c :: t) then some 0
    else (strIndexOf t pat).map (· + 1)

def versionKey : List Char := "\"version\"".toList

def lineNumberOf (text : List Char) : Nat :=
  let cut := match strIndexOf text versionKey with
    | some i => text.take i
    | none => []
  (cut.filter fun c => c == '\n').length + 1

/-! ### The comparison cores -/

/-- The record the callback revision's promise chain passes along: the
compare branch sets `success`, the skip branch sets `state`; the handler
then reads `res.state`, an access that is `undefined` (`none`) on the
compare branch. -/
structure ProcessRes where
  success : Option Bool
  state : Option String
  description : String
deriving DecidableEq

/-- `compareVersionsFromGitHub`'s computation on the two decoded manifest
texts (src/versioncheckr.js:67-80): `JSON.parse(x).version` for both,
`semver.inc`, `semver.gte`, and the verdict message. -/
def compareVersionsCoreV1 (oldText newText releaseType : String) :
    Except Unit ProcessRes :=
  match jsonParse oldText with
  | none => .error ()
  | some vo =>
    match jsonParse newText with
    | none => .error ()
    | some vn =>
      match versionField vo, versionField vn with
      | some ov, some nv =>
        match versionSatisfied (some ov) (some nv) releaseType with
        | .error _ => .error ()
        | .ok isNewer =>
          .ok { success := some isNewer, state := none,
                description :=
                  if isNewer then "Version " ++ nv ++ " will replace " ++ ov
                  else "Version " ++ nv ++ " requires a " ++ releaseType ++
                    " version number greater than " ++ ov }
      | _, _ => .error ()

structure CompareResV3 where
  success : Bool
  description : String
  lineNumber : Nat
deriving DecidableEq

/-- The checks-API revision's core (part_006:210-224): additionally locates
the `"version"` key in the new manifest text. -/
def compareVersionsCoreV3 (oldText newText releaseType : String) :
    Except Unit CompareResV3 :=
  let n := lineNumberOf newText.toList
  match jsonParse oldText with
  | none => .error ()
  | some vo =>
    match jsonParse newText with
    | none => .error ()
    | some vn =>
      match versionField vo, versionField vn with
      | some ov, some nv =>
        match versionSatisfied (some ov) (some nv) releaseType with
        | .error _ => .error ()
        | .ok isNewer =>
          .ok { success := isNewer,
                description :=
                  if isNewer then "Version " ++ nv ++ " will replace " ++ ov
                  else "Version " ++ nv ++ " requires a " ++ releaseType ++
                    " version number greater than " ++ ov,
                lineNumber := n }
      | _, _ => .error ()

/-! ### Event classification (checks-API revision, part_006:291-314)

The webhook body is duck-typed JSON: the classifier dereferences the
object named by the event type (`webHook.check_suite`, `webHook.check_run`
with its nested `check_suite`, `webHook.pull_request`), and that access
throws a `TypeError` when the object is absent — modelled by the `Option`
components and `Except.error`.  Leaf fields of a present object are taken
as present. -/

structure PRItem where
  baseRef : String
  number : Nat
deriving DecidableEq

structure CheckSuiteObj where
  headSha : String
  pullRequests : List PRItem
deriving DecidableEq

structure CheckRunObj where
  headSha : String
  checkSuite : Option CheckSuiteObj
deriving DecidableEq

structure PullReqObj where
  headSha : String
  baseRef : String
  number : Nat
  body : Option String
deriving DecidableEq

structure WebHook where
  action : Option String
  checkSuite : Option CheckSuiteObj
  checkRun : Option CheckRunObj
  pullRequest : Option PullReqObj
deriving DecidableEq

/-- §3's routing decision: `process` carries the head sha, the optional
base ref and PR number, and the body text (`none` when the event carries
no body — check events; `some none` models a `null` body). -/
inductive RoutingDecision where
  | process (headSha : String) (baseRef : Option String) (number : Option Nat)
      (body : Option (Option String))
  | noAction
deriving DecidableEq

/-- The dispatch chain of part_006:291-314. -/
def classifyV3 (githubEvent : String) (w : WebHook) :
    Except Unit RoutingDecision :=
  if githubEvent = "check_suite" ∧
      (w.action = some "requested" ∨ w.action = some "rerequested") then
    match w.checkSuite with
    | none => .error ()
    | some cs =>
      match cs.pullRequests with
      | [] => .ok (.process cs.headSha none none none)
      | pr :: _ => .ok (.process cs.headSha (some pr.baseRef) (some pr.number) none)
  else if githubEvent = "check_run" ∧ w.action = some "rerequested" then
    match w.checkRun with
    | none => .error ()
    | some cr =>
      match cr.checkSuite with
      | none => .error ()
      | some cs =>
        match cs.pullRequests with
        | [] => .ok (.process cr.headSha none none none)
        | pr :: _ =>
          .ok (.process cr.headSha (some pr.baseRef) (some pr.number) none)
  else if githubEvent = "pull_request" ∧
      (w.action = some "opened" ∨ w.action = some "reopened") then
    match w.pullRequest with
    | none => .error ()
    | some pr =>
      .ok (.process pr.headSha (some pr.baseRef) (some pr.number) (some pr.body))
  else .ok .noAction

/-! ### The orchestration pipelines, with an explicit fetch log

`fetch` stands for the external `github.repos.getContent` collaborator
(returning the decoded `package.json` text at a ref); the list accumulated
alongside each run records the refs it was called with.  `prBody` stands
for `github.pullRequests.get`, returning the PR body (`none` = `null`). -/

structure Resp where
  statusCode : Nat
  body : String
deriving DecidableEq

def jsTruthyStr : Option String → Bool
  | none => false
  | some s => ¬ s.isEmpty

def jsTruthyB : Option Bool → Bool
  | none => false
  | some b => b

/-! #### Callback revision (src/versioncheckr.js) -/

structure PostedStatus where
  sha : String
  state : String
  description : String
deriving DecidableEq

/-- `postStatus` (src/versioncheckr.js:86-98): its fifth argument is named
`success` and selects `state: success ? 'success' : 'failure'`; the handler
passes `res.state` there. -/
def postStatus (sha : String) (success : Option String) (description : String) :
    PostedStatus :=
  ⟨sha, if jsTruthyStr success then "success" else "failure", description⟩

/-- The handler of src/versioncheckr.js from the event-classification step
on (lines 125-168): signature already validated, webhook fields extracted.
Returns the response and the posted status (the response body echoes the
created status' description, per the result-reporting contract), plus the
log of `getContent` refs. -/
def handlerV1 (fetch : String → String) (githubEvent : String)
    (action : Option String) (baseSha headSha : String) (body : Option String) :
    Except Unit (Resp × Option PostedStatus) × List String :=
  if githubEvent ≠ "pull_request" ∨
      ¬ (action = some "opened" ∨ action = some "reopened" ∨
        action = some "synchronize" ∨ action = some "edited") then
    (.ok (⟨202, "No action to take"⟩, none), [])
  else
    let checking := extractPolicy body
    if checking = "skip" then
      let res : ProcessRes :=
        { success := none, state := some "success",
          description := "Skipped the version check" }
      let posted := postStatus headSha res.state res.description
      (.ok (⟨200, posted.description⟩, some posted), [])
    else
      match compareVersionsCoreV1 (fetch baseSha) (fetch headSha) checking with
      | .error _ => (.error (), [baseSha, headSha])
      | .ok res =>
        let posted := postStatus headSha res.state res.description
        (.ok (⟨200, posted.description⟩, some posted), [baseSha, headSha])

/-! #### Checks-API revision (last file of part_006) -/

/-- `compareVersionsFromGitHub`'s result object: `return {}` (the
no-base-ref short-circuit) leaves every field `undefined`. -/
structure CompareOutV3 where
  success : Option Bool
  description : Option String
  lineNumber : Option Nat
deriving DecidableEq

/-- part_006:175-225: short-circuit on a falsy `baseRef`; otherwise fetch
both manifests, resolve the body (fetching the PR when it is `undefined`),
extract the release type and run the comparison core. -/
def compareVersionsFromGitHubV3 (fetch : String → String)
    (prBody : Option Nat → Option String) (baseRef : Option String)
    (headSha : String) (number : Option Nat) (body : Option (Option String)) :
    Except Unit CompareOutV3 × List String :=
  if ¬ jsTruthyStr baseRef then
    (.ok { success := none, description := none, lineNumber := none }, [])
  else
    match baseRef with
    | none => (.ok { success := none, description := none, lineNumber := none }, [])
    | some br =>
      let oldText := fetch br
      let newText := fetch headSha
      let bodyVal : Option String := match body with
        | none => prBody number
        | some b => b
      let releaseType := extractReleaseTypeV3 bodyVal
      match compareVersionsCoreV3 oldText newText releaseType with
      | .error _ => (.error (), [br, headSha])
      | .ok r =>
        (.ok { success := some r.success, description := some r.description,
               lineNumber := some r.lineNumber }, [br, headSha])

/-- The check created by `updateCheck` (part_006:227-264): `noteLine` holds
the line-anchored failure annotation when one is attached. -/
structure CheckCreated where
  conclusion : String
  title : String
  summary : String
  noteLine : Option (Nat × String)
deriving DecidableEq

def updateCheckV3 (baseRef : Option String) (success : Option Bool)
    (description : Option String) (lineNumber : Option Nat) : CheckCreated :=
  if ¬ jsTruthyStr baseRef then
    { conclusion := "neutral", title := "No PR to check",
      summary := "Commit is not part of a pull request, so version was not checked",
      noteLine := none }
  else
    { conclusion := if jsTruthyB success then "success" else "failure",
      title := if jsTruthyB success then "Success" else "Failure",
      summary := description.getD "",
      noteLine := if jsTruthyB success then none
        else some (lineNumber.getD 0, description.getD "") }

/-- The checks-API handler from the classification step on
(part_006:291-327): the response echoes the created check's
`output.summary`, with status 200 when a base ref was present and 202
otherwise. -/
def handlerV3 (fetch : String → String) (prBody : Option Nat → Option String)
    (githubEvent : String) (w : WebHook) :
    Except Unit (Resp × Option CheckCreated) × List String :=
  match classifyV3 githubEvent w with
  | .error _ => (.error (), [])
  | .ok .noAction => (.ok (⟨202, "No action to take"⟩, none), [])
  | .ok (.process headSha baseRef number body) =>
    match compareVersionsFromGitHubV3 fetch prBody baseRef headSha number body with
    | (.error _, log) => (.error (), log)
    | (.ok out, log) =>
      let chk := updateCheckV3 baseRef out.success out.description out.lineNumber
      (.ok (⟨if jsTruthyStr baseRef then 200 else 202, chk.summary⟩, some chk), log)

/-! ### Definitions taken from the spec's words (for refinement claims) -/

/-- Modelled from the spec (§4.4): `increment` bumps exactly the named
component and resets all lower-order components to zero. -/
def specIncrement (t : Nat × Nat × Nat) (policy : String) : Nat × Nat × Nat :=
  if policy = "major" then (t.1 + 1, 0, 0)
  else if policy = "minor" then (t.1, t.2.1 + 1, 0)
  else (t.1, t.2.1, t.2.2 + 1)

/-- Modelled from the spec (§4.4): tuple-lexicographic `≤` on
(major, minor, patch) as integers. -/
def specTupleLe (a b : Nat × Nat × Nat) : Prop :=
  a.1 < b.1 ∨ (a.1 = b.1 ∧ (a.2.1 < b.2.1 ∨ (a.2.1 = b.2.1 ∧ a.2.2 ≤ b.2.2)))

instance (a b : Nat × Nat × Nat) : Decidable (specTupleLe a b) := by
  unfold specTupleLe; infer_instance

/-- Modelled from the spec (§4.2): the dispatch table, row by row, for a
well-shaped payload; combinations not in the table give `NoAction`. -/
def specTable (githubEvent : String) (w : WebHook) : RoutingDecision :=
  if githubEvent = "pull_request" ∧
      (w.action = some "opened" ∨ w.action = some "reopened") then
    match w.pullRequest with
    | some pr => .process pr.headSha (some pr.baseRef) (some pr.number) (some pr.body)
    | none => .noAction
  else if githubEvent = "check_suite" ∧
      (w.action = some "requested" ∨ w.action = some "rerequested") then
    match w.checkSuite with
    | some cs =>
      match cs.pullRequests with
      | [] => .process cs.headSha none none none
      | pr :: _ => .process cs.headSha (some pr.baseRef) (some pr.number) none
    | none => .noAction
  else if githubEvent = "check_run" ∧ w.action = some "rerequested" then
    match w.checkRun with
    | some cr =>
      match cr.checkSuite with
      | some cs =>
        match cs.pullRequests with
        | [] => .process cr.headSha none none none
        | pr :: _ => .process cr.headSha (some pr.baseRef) (some pr.number) none
      | none => .noAction
    | none => .noAction
  else .noAction

/-- A payload is well shaped for an event when it carries the object the
§4.2 table row dereferences (§3: the `ParsedEvent` variant is populated). -/
def wellShaped (githubEvent : String) (w : WebHook) : Prop :=
  (githubEvent = "check_suite" ∧
      (w.action = some "requested" ∨ w.action = some "rerequested") →
    w.checkSuite ≠ none) ∧
  (githubEvent = "check_run" ∧ w.action = some "rerequested" →
    ∃ cr cs, w.checkRun = some cr ∧ cr.checkSuite = some cs) ∧
  (githubEvent = "pull_request" ∧
      (w.action = some "opened" ∨ w.action = some "reopened") →
    w.pullRequest ≠ none)

instance {ε α : Type} [DecidableEq ε] [DecidableEq α] : DecidableEq (Except ε α)
  | .error e, .error f =>
    if h : e = f then isTrue (by rw [h])
    else isFalse fun hh => by cases hh; exact h rfl
  | .error _, .ok _ => isFalse fun h => by cases h
  | .ok _, .error _ => isFalse fun h => by cases h
  | .ok a, .ok b =>
    if h : a = b then isTrue (by rw [h])
    else isFalse fun hh => by cases hh; exact h rfl

/-! ### Shared handler lemmas -/

/-- A processed pull-request action in the callback revision. -/
def processedActionV1 (action : Option String) : Prop :=
  action = some "opened" ∨ action = some "reopened" ∨
    action = some "synchronize" ∨ action = some "edited"

/-- Any run of the callback handler on a processed pull-request event whose
extracted policy is `skip`: success is posted, the response echoes the skip
message, and no `getContent` call is logged. -/
theorem handlerV1_skip_run (fetch : String → String) (action : Option String)
    (baseSha headSha : String) (body : Option String)
    (hproc : processedActionV1 action) (hskip : extractPolicy body = "skip") :
    handlerV1 fetch "pull_request" action baseSha headSha body =
      (.ok (⟨200, "Skipped the version check"⟩,
        some ⟨headSha, "success", "Skipped the version check"⟩), []) := by
  rcases hproc with h | h | h | h <;>
    subst h <;>
    simp [handlerV1, hskip, postStatus, jsTruthyStr] <;>
    decide

/-! ### `strIndexOf` returns the first occurrence -/

theorem strIndexOf_some_first (text pat : List Char) (i : Nat)
    (h : strIndexOf text pat = some i) :
    pat.isPrefixOf (text.drop i) = true ∧
      ∀ j, j < i → ¬ pat.isPrefixOf (text.drop j) = true := by
  induction text generalizing i with
  | nil =>
    unfold strIndexOf at h
    split at h
    · rename_i hp
      cases h
      subst hp
      exact ⟨rfl, fun j hj => absurd hj (by omega)⟩
    · cases h
  | cons c t ih =>
    unfold strIndexOf at h
    split at h
    · rename_i hp
      cases h
      exact ⟨hp, fun j hj => absurd hj (by omega)⟩
    · rename_i hnp
      obtain ⟨i', hi', rfl⟩ := Option.map_eq_some'.mp h
      obtain ⟨hpre, hfirst⟩ := ih i' hi'
      refine ⟨hpre, ?_⟩
      intro j hj
      cases j with
      | zero => simpa using hnp
      | succ j' => exact hfirst j' (by omega)

theorem strIndexOf_none_nowhere (text pat : List Char)
    (h : strIndexOf text pat = none) :
    ∀ j, ¬ pat.isPrefixOf (text.drop j) = true := by
  induction text with
  | nil =>
    intro j
    unfold strIndexOf at h
    split at h
    · cases h
    · rename_i hp
      cases pat
      · exact absurd rfl hp
      · simp [List.isPrefixOf]
  | cons c t ih =>
    intro j
    unfold strIndexOf at h
    split at h
    · cases h
    · rename_i hnp
      cases j with
      | zero => simpa using hnp
      | succ j' =>
        have := Option.map_eq_none'.mp h
        exact ih this j'

/-! ### Decimal printing round-trips through the numeric-identifier parse -/

theorem charOfNat_toNat_small : ∀ k, k < 128 → (Char.ofNat k).toNat = k := by
  decide

theorem digitChar_isDigit : ∀ d, d < 10 →
    isDigitChar (Char.ofNat (48 + d)) = true := by
  decide

theorem natToCharsAux_all_digits : ∀ fuel n, n < fuel →
    (natToCharsAux fuel n).all isDigitChar = true := by
  intro fuel
  induction fuel with
  | zero => intro n h; omega
  | succ f ih =>
    intro n h
    unfold natToCharsAux
    split
    · rename_i h10
      simp [digitChar_isDigit n h10]
    · rename_i h10
      rw [List.all_append, Bool.and_eq_true]
      exact ⟨ih (n / 10) (by omega), by simp [digitChar_isDigit (n % 10) (by omega)]⟩

theorem natToCharsAux_ne_nil : ∀ fuel n, n < fuel →
    natToCharsAux fuel n ≠ [] := by
  intro fuel
  induction fuel with
  | zero => intro n h; omega
  | succ f _ =>
    intro n _
    unfold natToCharsAux
    split
    · simp
    · simp

theorem charsToNatVal_append_digit (xs : List Char) (c : Char) :
    charsToNatVal (xs ++ [c]) = 10 * charsToNatVal xs + (c.toNat - 48) := by
  simp [charsToNatVal]

theorem natToCharsAux_val : ∀ fuel n, n < fuel →
    charsToNatVal (natToCharsAux fuel n) = n := by
  intro fuel
  induction fuel with
  | zero => intro n h; omega
  | succ f ih =>
    intro n h
    unfold natToCharsAux
    split
    · rename_i h10
      have hc := charOfNat_toNat_small (48 + n) (by omega)
      simp only [charsToNatVal, List.foldl_cons, List.foldl_nil, hc]
      omega
    · rename_i h10
      rw [charsToNatVal_append_digit, ih (n / 10) (by omega),
        charOfNat_toNat_small (48 + n % 10) (by omega)]
      omega

theorem natToCharsAux_head_ne_zero : ∀ fuel n, n < fuel → 1 ≤ n →
    (natToCharsAux fuel n).head? ≠ some '0' := by
  intro fuel
  induction fuel with
  | zero => intro n h; omega
  | succ f ih =>
    intro n h h1
    unfold natToCharsAux
    split
    · rename_i h10
      have : ∀ d, 1 ≤ d → d < 10 → Char.ofNat (48 + d) ≠ '0' := by decide
      simp [this n h1 h10]
    · rename_i h10
      cases hcons : natToCharsAux f (n / 10) with
      | nil => exact absurd hcons (natToCharsAux_ne_nil f (n / 10) (by omega))
      | cons a l =>
        have := ih (n / 10) (by omega) (by omega)
        rw [hcons] at this
        simpa using this

theorem natToCharsAux_length_le : ∀ fuel n k, n < fuel → n < 10 ^ k → 1 ≤ k →
    (natToCharsAux fuel n).length ≤ k := by
  intro fuel
  induction fuel with
  | zero => intro n k h; omega
  | succ f ih =>
    intro n k h hk hk1
    unfold natToCharsAux
    split
    · rename_i h10
      simpa using hk1
    · rename_i h10
      have hk2 : 2 ≤ k := by
        by_contra hlt
        interval_cases k
        omega
      have hdiv : n / 10 < 10 ^ (k - 1) := by
        have hpow : 10 ^ (k - 1) * 10 = 10 ^ k := by
          rw [← pow_succ]
          congr 1
          omega
        omega
      have := ih (n / 10) (k - 1) (by omega) hdiv (by omega)
      simp only [List.length_append, List.length_cons, List.length_nil]
      omega

theorem takeWhile_append_all {p : Char → Bool} :
    ∀ l r : List Char, l.all p = true →
      (l ++ r).takeWhile p = l ++ r.takeWhile p := by
  intro l r h
  induction l with
  | nil => simp
  | cons c t ih =>
    simp only [List.all_cons, Bool.and_eq_true] at h
    simp [List.takeWhile_cons, h.1, ih h.2]

theorem dropWhile_append_all {p : Char → Bool} :
    ∀ l r : List Char, l.all p = true →
      (l ++ r).dropWhile p = r.dropWhile p := by
  intro l r h
  induction l with
  | nil => simp
  | cons c t ih =>
    simp only [List.all_cons, Bool.and_eq_true] at h
    simp [List.dropWhile_cons, h.1, ih h.2]

/-- Parsing a printed numeral followed by a non-digit remainder. -/
theorem parseNumId_print (n : Nat) (rest : List Char)
    (hn : n ≤ maxSafeInteger)
    (hrest : ∀ c, rest.head? = some c → isDigitChar c = false) :
    parseNumId (natToChars n ++ rest) = some (n, rest) := by
  have hall := natToCharsAux_all_digits (n + 1) n (by omega)
  have hrt : rest.takeWhile isDigitChar = [] := by
    cases rest with
    | nil => rfl
    | cons c r => simp [List.takeWhile_cons, hrest c rfl]
  have hrd : rest.dropWhile isDigitChar = rest := by
    cases rest with
    | nil => rfl
    | cons c r => simp [List.dropWhile_cons, hrest c rfl]
  unfold parseNumId natToChars
  rw [takeWhile_append_all _ _ hall, dropWhile_append_all _ _ hall, hrt, hrd,
    List.append_nil]
  rw [if_neg (natToCharsAux_ne_nil (n + 1) n (by omega))]
  have hval := natToCharsAux_val (n + 1) n (by omega)
  rw [if_neg ?hzero]
  · rw [hval, if_neg (by omega)]
  case hzero =>
    rintro ⟨hhead, hlen⟩
    rcases Nat.eq_zero_or_pos n with h0 | h1
    · subst h0
      simp [natToCharsAux] at hlen
    · exact natToCharsAux_head_ne_zero (n + 1) n (by omega) h1 hhead

theorem digit_not_space (c : Char) (h : isDigitChar c = true) :
    jsSpace c = false := by
  simp only [isDigitChar, decide_eq_true_eq] at h
  simp only [jsSpace, decide_eq_false_iff_not]
  omega

theorem dropWhile_eq_self_of_not (l : List Char)
    (h : ∀ c ∈ l, jsSpace c = false) : l.dropWhile jsSpace = l := by
  cases l with
  | nil => rfl
  | cons c t => simp [List.dropWhile_cons, h c (List.mem_cons_self c t)]

theorem jsTrim_eq_self (l : List Char) (h : ∀ c ∈ l, jsSpace c = false) :
    jsTrim l = l := by
  unfold jsTrim
  rw [dropWhile_eq_self_of_not l h,
    dropWhile_eq_self_of_not l.reverse (fun c hc => h c (List.mem_reverse.mp hc)),
    List.reverse_reverse]

theorem digit_ne_char (c k : Char) (hk : 58 ≤ k.toNat)
    (h : isDigitChar c = true) : c ≠ k := by
  intro he
  subst he
  simp only [isDigitChar, decide_eq_true_eq] at h
  omega

/-! ### The printed increment re-parses to itself -/

theorem parseSemverChars_print (ma mi pa : Nat) (h1 : ma ≤ maxSafeInteger)
    (h2 : mi ≤ maxSafeInteger) (h3 : pa ≤ maxSafeInteger) :
    parseSemverChars (natToChars ma ++ '.' :: (natToChars mi ++ '.' :: natToChars pa)) =
      some ⟨ma, mi, pa, []⟩ := by
  obtain ⟨c, t, hct⟩ : ∃ c t, natToChars ma = c :: t := by
    cases hd : natToChars ma with
    | nil => exact absurd hd (natToCharsAux_ne_nil (ma + 1) ma (by omega))
    | cons c t => exact ⟨c, t, rfl⟩
  have hcdig : isDigitChar c = true := by
    have hall := natToCharsAux_all_digits (ma + 1) ma (by omega)
    have hct' : natToCharsAux (ma + 1) ma = c :: t := hct
    rw [hct'] at hall
    simp only [List.all_cons, Bool.and_eq_true] at hall
    exact hall.1
  have hcv : c ≠ 'v' := digit_ne_char c 'v' (by decide) hcdig
  have hdot : ∀ x : Char,
      ('.' :: (natToChars mi ++ '.' :: natToChars pa)).head? = some x →
        isDigitChar x = false := by
    intro x hx
    cases hx
    decide
  have hdot2 : ∀ x : Char, ('.' :: natToChars pa).head? = some x →
      isDigitChar x = false := by
    intro x hx
    cases hx
    decide
  have hp1 : parseNumId (natToChars ma ++ '.' :: (natToChars mi ++ '.' :: natToChars pa)) =
      some (ma, '.' :: (natToChars mi ++ '.' :: natToChars pa)) :=
    parseNumId_print ma _ h1 hdot
  have hp2 : parseNumId (natToChars mi ++ '.' :: natToChars pa) =
      some (mi, '.' :: natToChars pa) :=
    parseNumId_print mi _ h2 hdot2
  have hp3 : parseNumId (natToChars pa) = some (pa, []) := by
    have := parseNumId_print pa [] h3 (by intro x hx; cases hx)
    rwa [List.append_nil] at this
  rw [hct, List.cons_append] at hp1
  simp only [parseSemverChars]
  rw [hct, List.cons_append]
  simp only [if_neg hcv, hp1, Option.bind, hp2, hp3]
  simp

theorem parseSemver_format (v : SemVer) (hpre : v.prerelease = [])
    (h1 : v.major ≤ maxSafeInteger) (h2 : v.minor ≤ maxSafeInteger)
    (h3 : v.patch ≤ maxSafeInteger) :
    parseSemver (formatSemVer v) = some v := by
  obtain ⟨ma, mi, pa, pre⟩ := v
  obtain rfl : pre = [] := hpre
  have h1' : ma ≤ 9007199254740991 := h1
  have h2' : mi ≤ 9007199254740991 := h2
  have h3' : pa ≤ 9007199254740991 := h3
  have hpow : (10 : Nat) ^ 16 = 10000000000000000 := by norm_num
  have lM := natToCharsAux_length_le (ma + 1) ma 16 (by omega) (by omega) (by omega)
  have lm := natToCharsAux_length_le (mi + 1) mi 16 (by omega) (by omega) (by omega)
  have lp := natToCharsAux_length_le (pa + 1) pa 16 (by omega) (by omega) (by omega)
  have hfmt : formatSemVer ⟨ma, mi, pa, []⟩ =
      (natToChars ma ++ '.' :: (natToChars mi ++ '.' :: natToChars pa)).asString := by
    simp [formatSemVer]
  have hmem : ∀ c ∈ natToChars ma ++ '.' :: (natToChars mi ++ '.' :: natToChars pa),
      isDigitChar c = true ∨ c = '.' := by
    intro c hc
    simp only [List.mem_append, List.mem_cons] at hc
    rcases hc with h | h | h | h | h
    · exact Or.inl (List.all_eq_true.mp (natToCharsAux_all_digits (ma + 1) ma (by omega)) c h)
    · exact Or.inr h
    · exact Or.inl (List.all_eq_true.mp (natToCharsAux_all_digits (mi + 1) mi (by omega)) c h)
    · exact Or.inr h
    · exact Or.inl (List.all_eq_true.mp (natToCharsAux_all_digits (pa + 1) pa (by omega)) c h)
  have hnospace : ∀ c ∈ natToChars ma ++ '.' :: (natToChars mi ++ '.' :: natToChars pa),
      jsSpace c = false := by
    intro c hc
    rcases hmem c hc with h | h
    · exact digit_not_space c h
    · subst h; decide
  rw [hfmt]
  unfold parseSemver
  rw [List.toList_asString, jsTrim_eq_self _ hnospace]
  have hlen : ¬ 256 <
      (natToChars ma ++ '.' :: (natToChars mi ++ '.' :: natToChars pa)).length := by
    simp only [List.length_append, List.length_cons]
    unfold natToChars
    omega
  rw [if_neg hlen]
  exact parseSemverChars_print ma mi pa h1 h2 h3

theorem orderingThen_eq_right (o : Ordering) : o.then .eq = o := by
  cases o <;> rfl

theorem semverCompareV_ne_lt_iff (x y : SemVer) (hx : x.prerelease = [])
    (hy : y.prerelease = []) :
    (semverCompareV x y ≠ .lt) ↔
      specTupleLe (y.major, y.minor, y.patch) (x.major, x.minor, x.patch) := by
  simp only [semverCompareV, hx, hy, preCompare]
  rw [orderingThen_eq_right]
  unfold mainCompare natCompare specTupleLe
  split_ifs <;> simp [Ordering.then] <;> omega

theorem semverIncVer_empty_pre (a : SemVer) (ha : a.prerelease = []) :
    (semverIncVer a "patch" = some ⟨a.major, a.minor, a.patch + 1, []⟩) ∧
    (semverIncVer a "minor" = some ⟨a.major, a.minor + 1, 0, []⟩) ∧
    (semverIncVer a "major" = some ⟨a.major + 1, 0, 0, []⟩) := by
  unfold semverIncVer
  refine ⟨?_, ?_, ?_⟩ <;> simp [ha]

/-! ### Case-insensitivity of the directive matcher -/

theorem char_toNat_inj {a b : Char} (h : a.toNat = b.toNat) : a = b :=
  Char.eq_of_val_eq (UInt32.ext h)

/-- Case equivalence: equal after ASCII lowercasing. -/
def caseEq (a b : Char) : Prop := asciiLower a = asciiLower b

theorem asciiLower_toNat (c : Char) :
    (asciiLower c).toNat =
      if 65 ≤ c.toNat ∧ c.toNat ≤ 90 then c.toNat + 32 else c.toNat := by
  unfold asciiLower
  split
  · rename_i h
    exact charOfNat_toNat_small _ (by omega)
  · rfl

theorem caseEq_cases {a b : Char} (h : caseEq a b) :
    a = b ∨ (isAsciiLetter a = true ∧ isAsciiLetter b = true) := by
  have ht : (asciiLower a).toNat = (asciiLower b).toNat := by rw [h]
  rw [asciiLower_toNat, asciiLower_toNat] at ht
  simp only [isAsciiLetter, decide_eq_true_eq]
  by_cases ha : 65 ≤ a.toNat ∧ a.toNat ≤ 90
  · rw [if_pos ha] at ht
    by_cases hb : 65 ≤ b.toNat ∧ b.toNat ≤ 90
    · rw [if_pos hb] at ht
      exact Or.inl (char_toNat_inj (by omega))
    · rw [if_neg hb] at ht
      exact Or.inr ⟨Or.inr (by omega), Or.inl (by omega)⟩
  · rw [if_neg ha] at ht
    by_cases hb : 65 ≤ b.toNat ∧ b.toNat ≤ 90
    · rw [if_pos hb] at ht
      exact Or.inr ⟨Or.inl (by omega), Or.inr (by omega)⟩
    · rw [if_neg hb] at ht
      exact Or.inl (char_toNat_inj ht)

theorem letter_ne_of_toNat (c x : Char) (hl : isAsciiLetter c = true)
    (hx : ¬ (97 ≤ x.toNat ∧ x.toNat ≤ 122) ∧ ¬ (65 ≤ x.toNat ∧ x.toNat ≤ 90)) :
    c ≠ x := by
  intro he
  subst he
  simp only [isAsciiLetter, decide_eq_true_eq] at hl
  omega

theorem caseEq_eq_symbol {a b : Char} (x : Char) (h : caseEq a b)
    (hx : ¬ (97 ≤ x.toNat ∧ x.toNat ≤ 122) ∧ ¬ (65 ≤ x.toNat ∧ x.toNat ≤ 90)) :
    (a = x) = (b = x) := by
  rcases caseEq_cases h with rfl | ⟨hA, hB⟩
  · rfl
  · simp [letter_ne_of_toNat a x hA hx, letter_ne_of_toNat b x hB hx]

theorem letter_not_jsSpace (c : Char) (h : isAsciiLetter c = true) :
    jsSpace c = false := by
  simp only [isAsciiLetter, decide_eq_true_eq] at h
  simp only [jsSpace, decide_eq_false_iff_not]
  omega

theorem letter_not_lineTerm (c : Char) (h : isAsciiLetter c = true) :
    isLineTerm c = false := by
  simp only [isAsciiLetter, decide_eq_true_eq] at h
  simp only [isLineTerm, decide_eq_false_iff_not]
  omega

theorem caseEq_jsSpace {a b : Char} (h : caseEq a b) : jsSpace a = jsSpace b := by
  rcases caseEq_cases h with rfl | ⟨hA, hB⟩
  · rfl
  · rw [letter_not_jsSpace a hA, letter_not_jsSpace b hB]

theorem caseEq_lineTerm {a b : Char} (h : caseEq a b) :
    isLineTerm a = isLineTerm b := by
  rcases caseEq_cases h with rfl | ⟨hA, hB⟩
  · rfl
  · rw [letter_not_lineTerm a hA, letter_not_lineTerm b hB]

theorem caseEq_isLetter {a b : Char} (h : caseEq a b) :
    isAsciiLetter a = isAsciiLetter b := by
  rcases caseEq_cases h with rfl | ⟨hA, hB⟩
  · rfl
  · rw [hA, hB]

/-- Relate optional matcher results up to ASCII case. -/
def optCaseEq (o o' : Option (List Char)) : Prop :=
  match o, o' with
  | none, none => True
  | some r, some r' => List.Forall₂ caseEq r r'
  | _, _ => False

theorem optCaseEq_bind {o o' : Option (List Char)} (h : optCaseEq o o')
    {f f' : List Char → Option (List Char)}
    (hf : ∀ {r r'}, List.Forall₂ caseEq r r' → optCaseEq (f r) (f' r')) :
    optCaseEq (o.bind f) (o'.bind f') := by
  cases o <;> cases o'
  · exact trivial
  · exact h.elim
  · exact h.elim
  · exact hf h

theorem stripCI_caseEq (pat : List Char) :
    ∀ {l l'}, List.Forall₂ caseEq l l' →
      optCaseEq (stripCI pat l) (stripCI pat l') := by
  induction pat with
  | nil =>
    intro l l' h
    exact h
  | cons p ps ih =>
    intro l l' h
    cases h with
    | nil => exact trivial
    | cons hc ht =>
      rename_i a b as bs
      unfold stripCI
      have he : eqCI p b = eqCI p a := by
        unfold eqCI
        unfold caseEq at hc
        rw [hc]
      rw [he]
      by_cases hcc : eqCI p a = true
      · rw [if_pos hcc, if_pos hcc]
        exact ih ht
      · rw [if_neg hcc, if_neg hcc]
        exact trivial

theorem dashStep_caseEq {s1 s1'} (h : List.Forall₂ caseEq s1 s1') :
    List.Forall₂ caseEq (dashStep s1) (dashStep s1') := by
  cases h with
  | nil => exact .nil
  | cons hc ht =>
    rename_i a b as bs
    have hcond : (a = '-' ∨ a = ' ') = (b = '-' ∨ b = ' ') := by
      rw [caseEq_eq_symbol '-' hc (by decide), caseEq_eq_symbol ' ' hc (by decide)]
    show List.Forall₂ caseEq (if a = '-' ∨ a = ' ' then as else a :: as)
      (if b = '-' ∨ b = ' ' then bs else b :: bs)
    by_cases hcc : a = '-' ∨ a = ' '
    · rw [if_pos hcc, if_pos (hcond ▸ hcc)]
      exact ht
    · rw [if_neg hcc, if_neg fun hb => hcc (hcond.symm ▸ hb)]
      exact .cons hc ht

theorem erStep_caseEq {s3 s3'} (h : List.Forall₂ caseEq s3 s3') :
    optCaseEq (erStep s3) (erStep s3') := by
  cases h with
  | nil => exact trivial
  | cons hc1 ht1 =>
    rename_i a b as bs
    have hce : eqCI 'e' b = eqCI 'e' a := by
      unfold eqCI; unfold caseEq at hc1; rw [hc1]
    have hcr : eqCI 'r' b = eqCI 'r' a := by
      unfold eqCI; unfold caseEq at hc1; rw [hc1]
    cases ht1 with
    | nil =>
      show optCaseEq (if eqCI 'r' a then some [] else none)
        (if eqCI 'r' b then some [] else none)
      rw [hcr]
      by_cases hr : eqCI 'r' a = true
      · rw [if_pos hr]
        exact .nil
      · rw [if_neg hr]
        exact trivial
    | cons hc2 ht2 =>
      rename_i a2 b2 as2 bs2
      have hcr2 : eqCI 'r' b2 = eqCI 'r' a2 := by
        unfold eqCI; unfold caseEq at hc2; rw [hc2]
      show optCaseEq
        (if eqCI 'e' a then (if eqCI 'r' a2 then some as2 else none)
          else if eqCI 'r' a then some (a2 :: as2) else none)
        (if eqCI 'e' b then (if eqCI 'r' b2 then some bs2 else none)
          else if eqCI 'r' b then some (b2 :: bs2) else none)
      rw [hce, hcr2]
      by_cases he : eqCI 'e' a = true
      · rw [if_pos he, if_pos he]
        by_cases hr : eqCI 'r' a2 = true
        · rw [if_pos hr, if_pos hr]
          exact ht2
        · rw [if_neg hr, if_neg hr]
          exact trivial
      · rw [if_neg he, if_neg he, hcr]
        by_cases hr : eqCI 'r' a = true
        · rw [if_pos hr, if_pos hr]
          exact .cons hc2 ht2
        · rw [if_neg hr, if_neg hr]
          exact trivial

theorem spaceStep_caseEq {s5 s5'} (h : List.Forall₂ caseEq s5 s5') :
    List.Forall₂ caseEq (spaceStep s5) (spaceStep s5') := by
  cases h with
  | nil => exact .nil
  | cons hc ht =>
    rename_i a b as bs
    show List.Forall₂ caseEq (if jsSpace a then as else a :: as)
      (if jsSpace b then bs else b :: bs)
    by_cases hsp : jsSpace a = true
    · rw [if_pos hsp, if_pos (caseEq_jsSpace hc ▸ hsp)]
      exact ht
    · rw [if_neg hsp, if_neg fun hb => hsp ((caseEq_jsSpace hc).symm ▸ hb)]
      exact .cons hc ht

theorem matchDirectiveHead_caseEq {l l'} (h : List.Forall₂ caseEq l l') :
    optCaseEq (matchDirectiveHead l) (matchDirectiveHead l') := by
  unfold matchDirectiveHead
  apply optCaseEq_bind (stripCI_caseEq _ h)
  intro r r' hr
  apply optCaseEq_bind (stripCI_caseEq _ (dashStep_caseEq hr))
  intro r2 r2' hr2
  apply optCaseEq_bind (erStep_caseEq hr2)
  intro s4 s4' h4
  cases h4 with
  | nil => exact trivial
  | cons hc ht =>
    rename_i a b as bs
    have hcond : (a = ':') = (b = ':') := caseEq_eq_symbol ':' hc (by decide)
    show optCaseEq (if a = ':' then some (spaceStep as) else none)
      (if b = ':' then some (spaceStep bs) else none)
    by_cases hcc : a = ':'
    · rw [if_pos hcc, if_pos (hcond ▸ hcc)]
      exact spaceStep_caseEq ht
    · rw [if_neg hcc, if_neg fun hb => hcc (hcond.symm ▸ hb)]
      exact trivial

theorem takeWhile_caseEq {l l'} (h : List.Forall₂ caseEq l l') :
    List.Forall₂ caseEq (l.takeWhile isAsciiLetter) (l'.takeWhile isAsciiLetter) := by
  induction h with
  | nil => exact .nil
  | cons hc ht ih =>
    rename_i a b as bs
    simp only [List.takeWhile_cons]
    by_cases hl : isAsciiLetter a = true
    · rw [if_pos hl, if_pos (caseEq_isLetter hc ▸ hl)]
      exact .cons hc ih
    · rw [if_neg hl, if_neg fun hb => hl ((caseEq_isLetter hc).symm ▸ hb)]
      exact .nil

theorem matchDirectiveTail_caseEq {l l'} (h : List.Forall₂ caseEq l l') :
    optCaseEq (matchDirectiveTail l) (matchDirectiveTail l') := by
  unfold matchDirectiveTail
  apply optCaseEq_bind (matchDirectiveHead_caseEq h)
  intro s6 s6' h6
  have hg := takeWhile_caseEq h6
  revert hg
  generalize s6.takeWhile isAsciiLetter = g
  generalize s6'.takeWhile isAsciiLetter = g'
  intro hg
  show optCaseEq (if g = [] then none else some g)
    (if g' = [] then none else some g')
  cases hg with
  | nil => exact trivial
  | cons hc ht =>
    rw [if_neg (by simp), if_neg (by simp)]
    exact .cons hc ht

theorem execFrom_caseEq {l l'} (h : List.Forall₂ caseEq l l') :
    ∀ at_ : Bool, optCaseEq (execDirectiveFrom at_ l) (execDirectiveFrom at_ l') := by
  induction h with
  | nil => intro at_; exact trivial
  | cons hc ht ih =>
    rename_i a b as bs
    intro at_
    have hmt := matchDirectiveTail_caseEq (List.Forall₂.cons hc ht)
    cases at_ with
    | false =>
      show optCaseEq (execDirectiveFrom (isLineTerm a) as)
        (execDirectiveFrom (isLineTerm b) bs)
      rw [caseEq_lineTerm hc]
      exact ih _
    | true =>
      show optCaseEq
        (match matchDirectiveTail (a :: as) with
          | some g => some g
          | none => execDirectiveFrom (isLineTerm a) as)
        (match matchDirectiveTail (b :: bs) with
          | some g => some g
          | none => execDirectiveFrom (isLineTerm b) bs)
      cases hma : matchDirectiveTail (a :: as) with
      | some g =>
        cases hmb : matchDirectiveTail (b :: bs) with
        | some g' =>
          rw [hma, hmb] at hmt
          simp only [hma, hmb]
          exact hmt
        | none =>
          rw [hma, hmb] at hmt
          exact hmt.elim
      | none =>
        cases hmb : matchDirectiveTail (b :: bs) with
        | some g' =>
          rw [hma, hmb] at hmt
          exact hmt.elim
        | none =>
          simp only [hma, hmb]
          rw [caseEq_lineTerm hc]
          exact ih _

theorem map_lower_eq {g g'} (h : List.Forall₂ caseEq g g') :
    g.map asciiLower = g'.map asciiLower := by
  induction h with
  | nil => rfl
  | cons hc ht ih =>
    rename_i a b as bs
    simp only [List.map_cons]
    rw [ih]
    unfold caseEq at hc
    rw [hc]

theorem toList_nil_iff (s : String) : s.toList = [] ↔ s = "" := by
  constructor
  · intro h
    rw [← String.asString_toList s, h]
    rfl
  · intro h
    subst h
    rfl

theorem isEmpty_iff_toList (s : String) : s.isEmpty = true ↔ s.toList = [] := by
  rw [String.isEmpty_iff]
  exact (toList_nil_iff s).symm

theorem extractPolicy_caseEq (s t : String)
    (h : List.Forall₂ caseEq s.toList t.toList) :
    extractPolicy (some s) = extractPolicy (some t) := by
  simp only [extractPolicy]
  have hexec := execFrom_caseEq h true
  by_cases hs : s.isEmpty = true
  · have hsnil : s.toList = [] := (isEmpty_iff_toList s).mp hs
    have htnil : t.toList = [] := by
      rw [hsnil] at h
      exact List.forall₂_nil_left_iff.mp h
    have ht : t.isEmpty = true := (isEmpty_iff_toList t).mpr htnil
    rw [if_pos hs, if_pos ht]
  · have hsne : ¬ s.toList = [] := fun hn => hs ((isEmpty_iff_toList s).mpr hn)
    have htne : ¬ t.isEmpty = true := by
      intro ht
      have htnil : t.toList = [] := (isEmpty_iff_toList t).mp ht
      rw [htnil] at h
      exact hsne (List.forall₂_nil_right_iff.mp h)
    rw [if_neg hs, if_neg htne]
    unfold execDirective at hexec
    cases hma : execDirectiveFrom true s.toList with
    | none =>
      cases hmb : execDirectiveFrom true t.toList with
      | none =>
        have hma2 : execDirectiveFrom true s.data = none := hma
        have hmb2 : execDirectiveFrom true t.data = none := hmb
        simp [execDirective, hma, hmb, hma2, hmb2]
      | some g' =>
        rw [hma, hmb] at hexec
        exact hexec.elim
    | some g =>
      cases hmb : execDirectiveFrom true t.toList with
      | none =>
        rw [hma, hmb] at hexec
        exact hexec.elim
      | some g' =>
        rw [hma, hmb] at hexec
        have hma2 : execDirectiveFrom true s.data = some g := hma
        have hmb2 : execDirectiveFrom true t.data = some g' := hmb
        simp only [execDirective, hma, hmb, hma2, hmb2]
        rw [map_lower_eq hexec]

theorem execFrom_pos : ∀ (cs : List Char) (at_ : Bool) (g : List Char),
    execDirectiveFrom at_ cs = some g →
    ∃ i, ((i = 0 ∧ at_ = true) ∨
        (1 ≤ i ∧ ∃ c, cs.get? (i - 1) = some c ∧ isLineTerm c = true)) ∧
      matchDirectiveTail (cs.drop i) = some g := by
  intro cs
  induction cs with
  | nil =>
    intro at_ g h
    cases h
  | cons c rest ih =>
    intro at_ g h
    unfold execDirectiveFrom at h
    by_cases hat : at_ = true
    · rw [if_pos hat] at h
      cases hmt : matchDirectiveTail (c :: rest) with
      | some g' =>
        simp only [hmt] at h
        cases h
        exact ⟨0, Or.inl ⟨rfl, hat⟩, hmt⟩
      | none =>
        simp only [hmt] at h
        obtain ⟨i, hcond, htail⟩ := ih (isLineTerm c) g h
        refine ⟨i + 1, ?_, htail⟩
        rcases hcond with ⟨rfl, hterm⟩ | ⟨hi1, ch, hget, hterm⟩
        · exact Or.inr ⟨by omega, c, by simp, hterm⟩
        · refine Or.inr ⟨by omega, ch, ?_, hterm⟩
          have hi : i + 1 - 1 = (i - 1) + 1 := by omega
          rw [hi, List.get?_cons_succ]
          exact hget
    · rw [if_neg hat] at h
      obtain ⟨i, hcond, htail⟩ := ih (isLineTerm c) g h
      refine ⟨i + 1, ?_, htail⟩
      rcases hcond with ⟨rfl, hterm⟩ | ⟨hi1, ch, hget, hterm⟩
      · exact Or.inr ⟨by omega, c, by simp, hterm⟩
      · refine Or.inr ⟨by omega, ch, ?_, hterm⟩
        have hi : i + 1 - 1 = (i - 1) + 1 := by omega
        rw [hi, List.get?_cons_succ]
        exact hget

theorem forall₂_caseEq_of_map : ∀ {l l' : List Char}, l.length = l'.length →
    l.map asciiLower = l'.map asciiLower → List.Forall₂ caseEq l l' := by
  intro l
  induction l with
  | nil =>
    intro l' hlen _
    cases l' with
    | nil => exact .nil
    | cons b bs => cases hlen
  | cons a as ih =>
    intro l' hlen hmap
    cases l' with
    | nil => cases hlen
    | cons b bs =>
      simp only [List.map_cons, List.cons.injEq] at hmap
      exact .cons hmap.1 (ih (by simpa using hlen) hmap.2)

/-! ## The claims -/

/-- C1 (code bug): a processed pull-request webhook with base manifest
version 1.0.0 and head version 1.0.1 under the default `patch` policy has
`isSatisfied` true (`semver.gte('1.0.1', semver.inc('1.0.0','patch'))`), yet
the published state is `'failure'`: the handler passes `res.state` to
`postStatus`, and `compareVersionsFromGitHub` resolves `{github, success,
description}` with no `state` key, so the verdict argument is `undefined`
(the response still carries the success message the comparator produced). -/
theorem handlerV1_satisfied_posts_failure :
    handlerV1 (fun r => if r = "baseSha" then "\x7b\"version\": \"1.0.0\"\x7d"
        else "\x7b\"version\": \"1.0.1\"\x7d") "pull_request" (some "opened")
        "baseSha" "headSha" none =
      (.ok (⟨200, "Version 1.0.1 will replace 1.0.0"⟩,
        some ⟨"headSha", "failure", "Version 1.0.1 will replace 1.0.0"⟩),
       ["baseSha", "headSha"]) ∧
    versionSatisfied (some "1.0.0") (some "1.0.1") "patch" = .ok true := by
  decide

/-- C2 counterexample: classification is not total over payload shapes — a
`check_suite` event with action `requested` whose payload carries no
`check_suite` object makes the classifier dereference `undefined` and
throw, instead of resolving to `NoAction`. -/
theorem classifyV3_throws_without_component :
    classifyV3 "check_suite" ⟨some "requested", none, none, none⟩ =
      Except.error () := by
  decide

/-- C2 (amended): for every event type, action and payload that carries the
object its table row dereferences, `classify` returns exactly the §4.2
table's decision — `pull_request` processes exactly `opened` and
`reopened`, a check event with an empty pull-request list processes with
`baseRef` absent, every combination not in the table yields `NoAction`,
and no such well-shaped classification throws; a check payload missing the
object named by its event type throws instead (see the counterexample). -/
theorem classifyV3_matches_spec_table (e : String) (w : WebHook)
    (h : wellShaped e w) : classifyV3 e w = .ok (specTable e w) := by
  obtain ⟨h1, h2, h3⟩ := h
  by_cases hcs : e = "check_suite" ∧
      (w.action = some "requested" ∨ w.action = some "rerequested")
  · obtain ⟨cs, hcs'⟩ := Option.ne_none_iff_exists'.mp (h1 hcs)
    have hne : ¬(e = "pull_request" ∧
        (w.action = some "opened" ∨ w.action = some "reopened")) := by
      rintro ⟨he, -⟩
      rw [he] at hcs
      exact absurd hcs.1 (by decide)
    simp only [classifyV3, specTable, if_pos hcs, if_neg hne, hcs']
    cases cs.pullRequests <;> rfl
  · by_cases hcr : e = "check_run" ∧ w.action = some "rerequested"
    · obtain ⟨cr, cs, hcr', hcs'⟩ := h2 hcr
      have hne : ¬(e = "pull_request" ∧
          (w.action = some "opened" ∨ w.action = some "reopened")) := by
        rintro ⟨he, -⟩
        rw [he] at hcr
        exact absurd hcr.1 (by decide)
      simp only [classifyV3, specTable, if_neg hcs, if_pos hcr, if_neg hne, hcr', hcs']
      cases cs.pullRequests <;> rfl
    · by_cases hpr : e = "pull_request" ∧
          (w.action = some "opened" ∨ w.action = some "reopened")
      · obtain ⟨pr, hpr'⟩ := Option.ne_none_iff_exists'.mp (h3 hpr)
        simp only [classifyV3, specTable, if_neg hcs, if_neg hcr, if_pos hpr, hpr']
      · simp only [classifyV3, specTable, if_neg hcs, if_neg hcr, if_neg hpr]

/-- Witness for the amended C2 theorem: a `check_suite`/`requested` payload
with an empty pull-request list classifies to `Process` with `baseRef`
absent, as the table's row specifies. -/
theorem classifyV3_matches_spec_table_witness :
    classifyV3 "check_suite" ⟨some "requested", some ⟨"hs", []⟩, none, none⟩ =
        .ok (specTable "check_suite" ⟨some "requested", some ⟨"hs", []⟩, none, none⟩) ∧
      specTable "check_suite" ⟨some "requested", some ⟨"hs", []⟩, none, none⟩ =
        .process "hs" none none none := by
  refine ⟨classifyV3_matches_spec_table _ _ ⟨fun _ => by simp, ?_, ?_⟩, by decide⟩
  · rintro ⟨h, -⟩
    exact absurd h (by decide)
  · rintro ⟨h, -⟩
    exact absurd h (by decide)

/-- C6: the policy extractor (1) returns the default `patch` when the free
text is absent or empty, (2) returns `patch` when the keyword captured
after the directive marker is not one of the recognized policy words, (3)
only ever matches the directive at the start of a line (position 0 or
right after a line terminator), and (4) is case-insensitive for both the
marker and the keyword: bodies that agree up to ASCII case extract the
same policy. -/
theorem extractPolicy_spec :
    (extractPolicy none = "patch" ∧ extractPolicy (some "") = "patch") ∧
    (∀ (s : String) (g : List Char), execDirective s.toList = some g →
      (g.map asciiLower).asString ≠ "skip" →
      (g.map asciiLower).asString ≠ "major" →
      (g.map asciiLower).asString ≠ "minor" →
      (g.map asciiLower).asString ≠ "patch" →
      extractPolicy (some s) = "patch") ∧
    (∀ (cs g : List Char), execDirective cs = some g →
      ∃ i, (i = 0 ∨ (1 ≤ i ∧ ∃ c, cs.get? (i - 1) = some c ∧ isLineTerm c = true)) ∧
        matchDirectiveTail (cs.drop i) = some g) ∧
    (∀ s t : String, List.Forall₂ caseEq s.toList t.toList →
      extractPolicy (some s) = extractPolicy (some t)) := by
  refine ⟨⟨rfl, rfl⟩, ?_, ?_, extractPolicy_caseEq⟩
  · intro s g hexec h1 h2 h3 h4
    have hse : s.isEmpty = false := by
      cases he : s.isEmpty
      · rfl
      · exfalso
        have hnil : s.toList = [] := (isEmpty_iff_toList s).mp he
        rw [hnil] at hexec
        rw [show execDirective ([] : List Char) = none from rfl] at hexec
        exact Option.noConfusion hexec
    have hexec2 : execDirectiveFrom true s.data = some g := hexec
    have hexec3 : execDirectiveFrom true s.toList = some g := hexec
    simp only [extractPolicy, hse, Bool.false_eq_true, if_false, execDirective,
      hexec, hexec2, hexec3]
    rw [if_neg]
    rintro (h | h | h | h)
    · exact h1 h
    · exact h2 h
    · exact h3 h
    · exact h4 h
  · intro cs g hexec
    obtain ⟨i, hcond, htail⟩ := execFrom_pos cs true g hexec
    refine ⟨i, ?_, htail⟩
    rcases hcond with ⟨rfl, -⟩ | h
    · exact Or.inl rfl
    · exact Or.inr h

/-- Witness for C6: a mixed-case marker+keyword equals its lowercase
variant and yields `major`; an unrecognized keyword falls back to `patch`. -/
theorem extractPolicy_spec_witness :
    extractPolicy (some "#VeRsIoN ChEcKeR: mAjOr") =
        extractPolicy (some "#version checker: major") ∧
      extractPolicy (some "#version checker: major") = "major" ∧
      extractPolicy (some "#version-checkr: bogus") = "patch" :=
  ⟨extractPolicy_spec.2.2.2 _ _ (forall₂_caseEq_of_map (by decide) (by decide)), by decide,
   extractPolicy_spec.2.1 "#version-checkr: bogus" "bogus".toList (by decide)
     (by decide) (by decide) (by decide) (by decide)⟩

/-- C7: a `check_suite` `requested` event whose pull-request list is empty
produces response 202 with body
`'Commit is not part of a pull request, so version was not checked'`
(the neutral check's summary echoed back), and the `getContent` log of the
invocation is empty — no content fetch happens. -/
theorem handlerV3_no_pr_context (fetch : String → String)
    (prBody : Option Nat → Option String) (w : WebHook) (cs : CheckSuiteObj)
    (ha : w.action = some "requested") (hcs : w.checkSuite = some cs)
    (hempty : cs.pullRequests = []) :
    handlerV3 fetch prBody "check_suite" w =
      (.ok (⟨202, "Commit is not part of a pull request, so version was not checked"⟩,
        some ⟨"neutral", "No PR to check",
          "Commit is not part of a pull request, so version was not checked",
          none⟩), []) := by
  simp [handlerV3, classifyV3, ha, hcs, hempty, compareVersionsFromGitHubV3,
    updateCheckV3, jsTruthyStr]

/-- Witness for C7 at a concrete webhook and oracles. -/
theorem handlerV3_no_pr_context_witness :
    handlerV3 (fun _ => "x") (fun _ => none) "check_suite"
        ⟨some "requested", some ⟨"hs", []⟩, none, none⟩ =
      (.ok (⟨202, "Commit is not part of a pull request, so version was not checked"⟩,
        some ⟨"neutral", "No PR to check",
          "Commit is not part of a pull request, so version was not checked",
          none⟩), []) :=
  handlerV3_no_pr_context _ _ _ ⟨"hs", []⟩ rfl rfl rfl

/-- C8 counterexample: in the manifest text
`{"\u0076ersion": "1.0.1"}` the substring `"version"` does not occur, yet
the comparison succeeds (JavaScript's `JSON.parse` decodes the escape, so
the object still has a `version` field) and reports lineNumber 1 — the
`indexOf` result `-1` makes `substring(0, -1)` empty rather than failing. -/
theorem compareV3_lineNumber_escape :
    strIndexOf ("\x7b\"\\u0076ersion\": \"1.0.1\"\x7d".toList) versionKey = none ∧
    compareVersionsCoreV3 "\x7b\"version\": \"1.0.0\"\x7d"
        "\x7b\"\\u0076ersion\": \"1.0.1\"\x7d" "patch" =
      .ok ⟨true, "Version 1.0.1 will replace 1.0.0", 1⟩ := by
  decide

/-- C8 (amended): every successful comparison reports as `lineNumber` the
value computed from the new manifest text: one plus the number of newline
characters preceding the first occurrence of `"version"` when that
substring occurs (first = no occurrence at any earlier index), and 1 when
it does not occur (the `substring(0, -1)` cut is empty); when the parsed
manifest has no string `version` field the operation fails — but a
manifest whose version key is spelled with JSON escapes parses fine and
yields the default lineNumber 1 (see the counterexample). -/
theorem compareV3_lineNumber_spec :
    (∀ old new rt r, compareVersionsCoreV3 old new rt = .ok r →
        r.lineNumber = lineNumberOf new.toList) ∧
    (∀ (text : List Char) i, strIndexOf text versionKey = some i →
        versionKey.isPrefixOf (text.drop i) = true ∧
        (∀ j, j < i → ¬ versionKey.isPrefixOf (text.drop j) = true) ∧
        lineNumberOf text = (text.take i).count '\n' + 1) ∧
    (∀ text : List Char, strIndexOf text versionKey = none →
        lineNumberOf text = 1) ∧
    (∀ old new rt v, jsonParse new = some v → versionField v = none →
        compareVersionsCoreV3 old new rt = .error ()) := by
  refine ⟨?_, ?_, ?_, ?_⟩
  · intro old new rt r h
    unfold compareVersionsCoreV3 at h
    split at h
    · cases h
    · split at h
      · cases h
      · split at h
        · split at h
          · cases h
          · cases h; rfl
        · cases h
  · intro text i h
    obtain ⟨hp, hf⟩ := strIndexOf_some_first text versionKey i h
    exact ⟨hp, hf, by simp [lineNumberOf, h, List.count, List.countP_eq_length_filter]⟩
  · intro text h
    simp [lineNumberOf, h]
  · intro old new rt v hparse hnone
    cases ho : jsonParse old with
    | none => simp [compareVersionsCoreV3, ho]
    | some vo =>
      simp only [compareVersionsCoreV3, ho, hparse, hnone]
      cases versionField vo <;> rfl

/-- Witness for the amended C8 theorem: `"version"` first occurs on line 2
of a two-line manifest and the comparison core reports exactly that. -/
theorem compareV3_lineNumber_spec_witness :
    strIndexOf ("x\n\"version\": \"1.0.0\"".toList) versionKey = some 2 ∧
      lineNumberOf ("x\n\"version\": \"1.0.0\"".toList) =
        (("x\n\"version\": \"1.0.0\"".toList).take 2).count '\n' + 1 ∧
      lineNumberOf ("x\n\"version\": \"1.0.0\"".toList) = 2 :=
  ⟨by decide, (compareV3_lineNumber_spec.2.1 _ 2 (by decide)).2.2, by decide⟩

/-- C5 counterexample: the old version `1.0.9007199254740991` and the new
version `1.1.0` are both well-formed three-component versions (strict
semver parses with empty prerelease — `MAX_SAFE_INTEGER` itself is a valid
component), and under the `patch` policy the spec's tuple-lexicographic
rule says the new version satisfies the requirement
(`1.1.0 ≥ 1.0.9007199254740992`); yet the code throws instead of
reporting `isSatisfied`: `semver.inc` formats
`1.0.9007199254740992`, whose patch component exceeds
`MAX_SAFE_INTEGER`, so `semver.gte` throws a `TypeError` re-parsing it. -/
theorem versionSatisfied_boundary_throws :
    parseSemver "1.0.9007199254740991" = some ⟨1, 0, 9007199254740991, []⟩ ∧
    parseSemver "1.1.0" = some ⟨1, 1, 0, []⟩ ∧
    specTupleLe (specIncrement (1, 0, 9007199254740991) "patch") (1, 1, 0) ∧
    versionSatisfied (some "1.0.9007199254740991") (some "1.1.0") "patch" =
      Except.error () := by
  refine ⟨by decide, by decide, by decide, ?_⟩
  decide

/-- C5 (amended): for all well-formed three-component versions whose
components stay strictly below node-semver's `MAX_SAFE_INTEGER` validity
bound — so that the incremented version re-parses — and every policy in
patch/minor/major, the code's `isNewer` — `semver.gte(new,
semver.inc(old, releaseType))` — is true exactly when
`new >= increment(old, policy)` under tuple-lexicographic integer
comparison, where `increment` bumps the named component and zeroes the
lower-order ones (so `patch` on 1.2.3 requires ≥ 1.2.4, `minor` ≥ 1.3.0,
`major` ≥ 2.0.0, and 9.9.99 < 10.0.0); at the excluded boundary, where a
component of the old version equals `MAX_SAFE_INTEGER`, the comparison
throws instead (see the counterexample). -/
theorem versionSatisfied_iff_spec (old new : String) (a b : SemVer) (rt : String)
    (ha : parseSemver old = some a) (hpa : a.prerelease = [])
    (hb : parseSemver new = some b) (hpb : b.prerelease = [])
    (hrt : rt = "patch" ∨ rt = "minor" ∨ rt = "major")
    (hM : a.major < maxSafeInteger) (hm : a.minor < maxSafeInteger)
    (hp : a.patch < maxSafeInteger) :
    versionSatisfied (some old) (some new) rt = .ok true ↔
      specTupleLe (specIncrement (a.major, a.minor, a.patch) rt)
        (b.major, b.minor, b.patch) := by
  have hIncCases := semverIncVer_empty_pre a hpa
  rcases hrt with rfl | rfl | rfl
  · have hmin : a.minor ≤ maxSafeInteger := Nat.le_of_lt hm
    have hpat : a.patch + 1 ≤ maxSafeInteger := hp
    have hparse2 : parseSemver (formatSemVer ⟨a.major, a.minor, a.patch + 1, []⟩) =
        some ⟨a.major, a.minor, a.patch + 1, []⟩ :=
      parseSemver_format _ rfl (Nat.le_of_lt hM) hmin hpat
    unfold versionSatisfied semverInc
    simp only [Option.bind, ha, hIncCases.1, Option.map]
    unfold semverGte
    rw [hb, hparse2]
    simp only [Except.ok.injEq, decide_eq_true_eq]
    rw [semverCompareV_ne_lt_iff b _ hpb rfl]
    simp [specIncrement]
  · have hmin : a.minor + 1 ≤ maxSafeInteger := hm
    have hpat : (0 : Nat) ≤ maxSafeInteger := Nat.zero_le _
    have hparse2 : parseSemver (formatSemVer ⟨a.major, a.minor + 1, 0, []⟩) =
        some ⟨a.major, a.minor + 1, 0, []⟩ :=
      parseSemver_format _ rfl (Nat.le_of_lt hM) hmin hpat
    unfold versionSatisfied semverInc
    simp only [Option.bind, ha, hIncCases.2.1, Option.map]
    unfold semverGte
    rw [hb, hparse2]
    simp only [Except.ok.injEq, decide_eq_true_eq]
    rw [semverCompareV_ne_lt_iff b _ hpb rfl]
    simp [specIncrement]
  · have hmin : (0 : Nat) ≤ maxSafeInteger := Nat.zero_le _
    have hpat : (0 : Nat) ≤ maxSafeInteger := Nat.zero_le _
    have hparse2 : parseSemver (formatSemVer ⟨a.major + 1, 0, 0, []⟩) =
        some ⟨a.major + 1, 0, 0, []⟩ :=
      parseSemver_format _ rfl hM hmin hpat
    unfold versionSatisfied semverInc
    simp only [Option.bind, ha, hIncCases.2.2, Option.map]
    unfold semverGte
    rw [hb, hparse2]
    simp only [Except.ok.injEq, decide_eq_true_eq]
    rw [semverCompareV_ne_lt_iff b _ hpb rfl]
    simp [specIncrement]

/-- Witness for C5 at `old = 1.2.3`, `new = 1.2.4`, policy `patch`. -/
theorem versionSatisfied_iff_spec_witness :
    versionSatisfied (some "1.2.3") (some "1.2.4") "patch" = .ok true ∧
      specTupleLe (specIncrement (1, 2, 3) "patch") (1, 2, 4) :=
  ⟨(versionSatisfied_iff_spec "1.2.3" "1.2.4" ⟨1, 2, 3, []⟩ ⟨1, 2, 4, []⟩ "patch"
      (by decide) rfl (by decide) rfl (Or.inl rfl) (by decide) (by decide)
      (by decide)).mpr (by decide), by decide⟩

/-- C9: when the extracted policy is `skip`, the callback handler
short-circuits — it posts state `'success'` unconditionally and the
`getContent` log is empty, so neither manifest is fetched (nor parsed: the
comparison core is never entered). -/
theorem handlerV1_skip_short_circuits (fetch : String → String)
    (action : Option String) (baseSha headSha : String) (body : Option String)
    (hproc : processedActionV1 action) (hskip : extractPolicy body = "skip") :
    handlerV1 fetch "pull_request" action baseSha headSha body =
      (.ok (⟨200, "Skipped the version check"⟩,
        some ⟨headSha, "success", "Skipped the version check"⟩), []) :=
  handlerV1_skip_run fetch action baseSha headSha body hproc hskip

/-- Witness for C9: a pull request opened with body `#version-checkr:skip`. -/
theorem handlerV1_skip_short_circuits_witness :
    handlerV1 (fun _ => "x") "pull_request" (some "opened") "b" "h"
        (some "#version-checkr:skip") =
      (.ok (⟨200, "Skipped the version check"⟩,
        some ⟨"h", "success", "Skipped the version check"⟩), []) :=
  handlerV1_skip_short_circuits _ _ _ _ _ (Or.inl rfl) (by decide)

/-- C10: a processed pull_request event whose body contains a recognized
skip directive (the matcher captures a keyword lowercasing to `skip`) gets
response 200 with body `'Skipped the version check'`, and the posted status
has state `'success'` with that same description. -/
theorem handlerV1_skip_directive_response (fetch : String → String)
    (action : Option String) (baseSha headSha : String) (s : String)
    (g : List Char) (hproc : processedActionV1 action)
    (hexec : execDirective s.toList = some g)
    (hg : (g.map asciiLower).asString = "skip") :
    handlerV1 fetch "pull_request" action baseSha headSha (some s) =
      (.ok (⟨200, "Skipped the version check"⟩,
        some ⟨headSha, "success", "Skipped the version check"⟩), []) := by
  apply handlerV1_skip_run fetch action baseSha headSha (some s) hproc
  have hne : s.isEmpty = false := by
    cases he : s.isEmpty
    · rfl
    · exfalso
      rw [String.isEmpty_iff] at he
      rw [he] at hexec
      rw [show execDirective "".toList = none from rfl] at hexec
      exact Option.noConfusion hexec
  simp only [String.toList] at hexec
  simp [extractPolicy, hne, hexec, hg]

/-- Witness for C10: a mixed-case skip directive after a comment line. -/
theorem handlerV1_skip_directive_response_witness :
    handlerV1 (fun _ => "x") "pull_request" (some "reopened") "b" "h"
        (some "Hello.\n#Version Checker: SKIP please") =
      (.ok (⟨200, "Skipped the version check"⟩,
        some ⟨"h", "success", "Skipped the version check"⟩), []) :=
  handlerV1_skip_directive_response _ _ _ _ _ "SKIP".toList
    (Or.inr (Or.inl rfl)) (by decide) (by decide)

end VC
